import Mathlib

/-!
Shallow embedding of the row-synchronization core of drive_export
(main.go `task.process`, target.go `htmlCatalogTarget` and friends),
with theorems settling the frozen claims about it.

Conventions of the embedding:
* Go strings are Lean `String`s; Go `map[string]T` is a key-distinct
  association list updated by overwrite.
* The spreadsheet row iterator is a `List` of `Except`-valued reads
  (excelize `rows.Columns()` either errors or yields the cell list).
* Cell mutation (`f.SetCellValue`) is recorded as an ordered write trace;
  `columnLetter` is injective on the column indices that occur, so a write
  is addressed by (column index, 1-based row number).
* `target.Insert` as seen from the synchronizer is an oracle
  `tid → rec → Except String String` (error text, or the record id);
  the Go map of targets is iterated in the fixed order of the tid list.
-/

namespace DriveExport

/-- A raw spreadsheet row: the list of cell strings `rows.Columns()` yields. -/
abbrev Row := List String

/-- One read from the row iterator: an error or the cells. -/
abbrev RowRead := Except String Row

/-- The `Insert` oracle: target id and materialized row map to the call's outcome. -/
abbrev Ins := String → List (String × String) → Except String String

/-- One `f.SetCellValue(sheet, columnLetter(col)+strconv.Itoa(row), val)` call. -/
structure CellWrite where
  col : Nat
  row : Nat
  val : String
deriving DecidableEq, Repr

/-- Go `map[string]int` assignment `m[k] = v` (overwrite; keys stay distinct). -/
def mapSet (m : List (String × Nat)) (k : String) (v : Nat) : List (String × Nat) :=
  (k, v) :: m.filter (fun p => p.1 ≠ k)

/-- Go `map[string]int` read `m[k]` (zero value 0 when the key is absent). -/
def mapGet (m : List (String × Nat)) (k : String) : Nat :=
  (m.lookup k).getD 0

/-- Whether the Go map holds key `k`. -/
def mapHasKey (m : List (String × Nat)) (k : String) : Bool :=
  (m.lookup k).isSome

/-- Go `map[string]string` assignment (overwrite; keys stay distinct). -/
def recSet (m : List (String × String)) (k v : String) : List (String × String) :=
  (k, v) :: m.filter (fun p => p.1 ≠ k)

/-- Go `map[string]string` read (zero value `""` when the key is absent). -/
def recGet (m : List (String × String)) (k : String) : String :=
  (m.lookup k).getD ""

/-- target.go `targetStatusFieldName`: the reserved status column for a target id. -/
def targetStatusFieldName (tid : String) : String := tid ++ "_status"

/-- target.go `targetRecordIdFieldName`: the reserved record-id column for a target id. -/
def targetRecordIdFieldName (tid : String) : String := tid ++ "_record_id"

/-- The inner loop of the header scan in `task.process`: one header field `f` at
    index `i` checked against every target, recording the column index into the
    status map or the record-id map on a match. -/
def scanField (tids : List String) (f : String) (i : Nat)
    (m : List (String × Nat) × List (String × Nat)) :
    List (String × Nat) × List (String × Nat) :=
  tids.foldl (fun m tid =>
    if f = targetStatusFieldName tid then (mapSet m.1 tid i, m.2)
    else if f = targetRecordIdFieldName tid then (m.1, mapSet m.2 tid i)
    else m) m

/-- The header scan of `task.process` (`for i, f := range fields`), building
    `statusColumns` and `recordIdColumns`. -/
def scanColumns (tids : List String) (fields : List String) (i : Nat)
    (m : List (String × Nat) × List (String × Nat)) :
    List (String × Nat) × List (String × Nat) :=
  match fields with
  | [] => m
  | f :: rest => scanColumns tids rest (i + 1) (scanField tids f i m)

/-- The guarded cell read of `task.process`: `row[idx]` when `len(row) > idx`,
    else the zero value `""`. -/
def cellAt (row : Row) (idx : Nat) : String := row.getD idx ""

/-- `rec := make(map[string]string); for i, cell := range row { rec[fields[i]] = cell }`. -/
def buildRec (fields : List String) (row : Row) : List (String × String) :=
  (List.zip fields row).foldl (fun m p => recSet m p.1 p.2) []

/-- The targets classified *pending-insert* for a row: status cell and record-id
    cell both empty. -/
def insertTargetsOf (tids : List String) (sm rm : List (String × Nat)) (row : Row) :
    List String :=
  tids.filter (fun tid =>
    decide (cellAt row (mapGet sm tid) = "") && decide (cellAt row (mapGet rm tid) = ""))

/-- The targets classified *pending-update* for a row: status cell empty, record-id
    cell non-empty (collected but never executed by the code). -/
def updateTargetsOf (tids : List String) (sm rm : List (String × Nat)) (row : Row) :
    List String :=
  tids.filter (fun tid =>
    decide (cellAt row (mapGet sm tid) = "") && decide (cellAt row (mapGet rm tid) ≠ ""))

/-- The (success, status, record id) triple one `Insert` call settles on:
    `status := "ok"` then overwritten with `err.Error()` on failure, the Go id
    result being the zero value `""` on every error path. -/
def insertOutcome (res : Except String String) : Bool × String × String :=
  match res with
  | .ok id => (true, "ok", id)
  | .error e => (false, e, "")

/-- The cell writes one `Insert` call produces: the status cell always, and the
    record-id cell exactly when the status written is `"ok"`. -/
def insertWrites (res : Except String String) (i sc rc : Nat) : List CellWrite :=
  let o := insertOutcome res
  ⟨sc, i, o.2.1⟩ :: (if o.2.1 = "ok" then [⟨rc, i, o.2.2⟩] else [])

/-- What processing a single data row with at least one pending target does:
    whether every attempted target succeeded, the cell writes, and the targets
    whose `Insert` was called (in order). -/
structure RowOutcome where
  success : Bool
  writes : List CellWrite
  calls : List String
deriving DecidableEq, Repr

/-- The per-row body of `task.process` for a row that is not skipped:
    call `Insert` for each pending-insert target, write the status and
    (on `"ok"`) the record id back, and report the row's overall outcome. -/
def processRow (ins : Ins) (sm rm : List (String × Nat)) (fields : List String)
    (row : Row) (i : Nat) (tids : List String) : RowOutcome :=
  let its := insertTargetsOf tids sm rm row
  let rcd := buildRec fields row
  { success := its.all (fun tid => (insertOutcome (ins tid rcd)).1)
    writes := its.flatMap (fun tid =>
      insertWrites (ins tid rcd) i (mapGet sm tid) (mapGet rm tid))
    calls := its }

/-- The mutable state of the row loop in `task.process`: the 1-based physical row
    number `i`, the three counters, the write trace, the `Insert` call trace and
    the `task.updated` flag. -/
structure ProcState where
  i : Nat
  total : Nat
  done : Nat
  fail : Nat
  writes : List CellWrite
  calls : List String
  updated : Bool
deriving DecidableEq, Repr

/-- The row loop of `task.process`: a read error skips the row, an empty cell list
    breaks the loop, a row with no pending target is skipped after `total++`, and
    any other row is processed and counted into `done` or `fail`. -/
def processLoop (ins : Ins) (sm rm : List (String × Nat)) (fields : List String)
    (tids : List String) : ProcState → List RowRead → ProcState
  | st, [] => st
  | st, r :: rest =>
    match r with
    | .error _ => processLoop ins sm rm fields tids { st with i := st.i + 1 } rest
    | .ok row =>
      if row = [] then { st with i := st.i + 1 }
      else
        let st1 : ProcState := { st with i := st.i + 1, total := st.total + 1 }
        if insertTargetsOf tids sm rm row = [] ∧ updateTargetsOf tids sm rm row = [] then
          processLoop ins sm rm fields tids st1 rest
        else
          let o := processRow ins sm rm fields row st1.i tids
          processLoop ins sm rm fields tids
            { st1 with
              writes := st1.writes ++ o.writes
              calls := st1.calls ++ o.calls
              done := if o.success then st1.done + 1 else st1.done
              fail := if o.success then st1.fail else st1.fail + 1
              updated := true } rest

/-- The loop state after one processed (counted into done/fail) row: the record
    built at the bottom of the row loop's body. -/
def procStep (st : ProcState) (o : RowOutcome) : ProcState :=
  { i := st.i + 1
    total := st.total + 1
    done := if o.success then st.done + 1 else st.done
    fail := if o.success then st.fail else st.fail + 1
    writes := st.writes ++ o.writes
    calls := st.calls ++ o.calls
    updated := true }

/-- The outcome of one `task.process` run over an opened source. -/
structure ProcOut where
  fields : List String
  sm : List (String × Nat)
  rm : List (String × Nat)
  st : ProcState
  saved : Bool
deriving DecidableEq, Repr

/-- main.go `task.process` over the opened source: the first read is the header
    row, the status/record-id columns are validated before any data row is read,
    then the row loop runs from physical row 1 and the table is saved to the
    result file exactly when `task.updated` was set. -/
def processTask (tids : List String) (ins : Ins) (rows : List RowRead) :
    Except String ProcOut :=
  match rows with
  | [] => .error "source file empty"
  | hd :: rest =>
    match hd with
    | .error _ => .error "failed to parse field names"
    | .ok fields =>
      let m := scanColumns tids fields 0 ([], [])
      if m.1.length ≠ tids.length then
        .error "invalid source: invalid status columns number"
      else if m.2.length ≠ tids.length then
        .error "invalid source: invalid record id columns number"
      else
        let st := processLoop ins m.1 m.2 fields tids ⟨1, 0, 0, 0, [], [], false⟩ rest
        .ok ⟨fields, m.1, m.2, st, st.updated⟩

/-- The value a cell holds after the run: the last write to its address, else the
    original content. -/
def applyWrites (orig : Nat → Nat → String) (ws : List CellWrite) (c r : Nat) : String :=
  ws.foldl (fun v w => if w.col = c ∧ w.row = r then w.val else v) (orig c r)

/-- The writes of a run that touch row `i` in column `sc` or `rc`. -/
def writesFor (ws : List CellWrite) (i sc rc : Nat) : List CellWrite :=
  ws.filter (fun w => decide (w.row = i) && (decide (w.col = sc) || decide (w.col = rc)))

/-- newTask source path: `filepath.Join(tdir, file + "." + exportFormat)`. -/
def taskSourcePath (tdir file : String) : String :=
  tdir ++ "/" ++ (file ++ "." ++ "xlsx")

/-- newTask result path: `filepath.Join(tdir, file + "_result." + exportFormat)`. -/
def taskResultPath (tdir file : String) : String :=
  tdir ++ "/" ++ (file ++ "_result." ++ "xlsx")

/-! The Catalog target (target.go `htmlCatalogTarget`). On-disk state relevant to
the claims: the names of the entries directly under the catalog directory, the
content of the catalog's real `index.html`, and the temp index file when one has
been written. The write-once asset cache lives under the task directory, outside
the catalog, and is not part of this state. -/

/-- The digits of a decimal number, or `none` on an empty or non-digit list. -/
def digitsToNat (cs : List Char) : Option Nat :=
  if cs = [] then none
  else if cs.all Char.isDigit then
    some (cs.foldl (fun n c => n * 10 + (c.toNat - 48)) 0)
  else none

/-- Modelling `strconv.Atoi`: an optional sign followed by decimal digits
    (the out-of-range error of the 64-bit original is not modelled). -/
def atoi (s : String) : Option Int :=
  match s.data with
  | [] => none
  | c :: rest =>
    if c = '-' then (digitsToNat rest).map (fun n => -(n : Int))
    else if c = '+' then (digitsToNat rest).map (fun n => (n : Int))
    else (digitsToNat (c :: rest)).map (fun n => (n : Int))

/-- The id-recovery scan of `newHTMLCatalogTarget`: the running maximum, starting
    from 0, over directory entry names `strconv.Atoi` parses
    (`if id, err := strconv.Atoi(dirent.Name()); err == nil && maxId < id`). -/
def maxIdScan (dirents : List String) : Int :=
  dirents.foldl (fun maxId d =>
    match atoi d with
    | some id => if maxId < id then id else maxId
    | none => maxId) 0

/-- target.go `htmlCatalogTarget`: the in-memory fields the claims touch. -/
structure htmlCatalogTarget where
  name : String
  catalog : String
  indexBuf : String
  lastId : Int
  indexPlaceholder : String
deriving DecidableEq, Repr

/-- The on-disk state of one catalog: entry names under the catalog directory, the
    real index file's content, and the temp index file's content when present. -/
structure CatFS where
  dirs : List String
  indexFile : String
  tmpIndex : Option String
deriving DecidableEq, Repr

/-- target.go `newHTMLCatalogTarget`, given the catalog directory's state: reject
    an empty placeholder, read the index file or create `<ul>placeholder</ul>`,
    and recover `lastId` from the directory listing (`dirents` is the listing
    after the index file exists, so it contains `index.html`, which does not
    parse as an integer). The second component is the resulting on-disk index. -/
def newHTMLCatalogTarget (name catalog placeholder : String)
    (dirents : List String) (indexContent : Option String) :
    Except String (htmlCatalogTarget × String) :=
  if placeholder = "" then .error "invalid config: index placeholder not set"
  else
    let idxbuf := match indexContent with
      | some b => b
      | none => "<ul>" ++ placeholder ++ "</ul>"
    .ok ({ name := name, catalog := catalog, indexBuf := idxbuf,
           lastId := maxIdScan dirents, indexPlaceholder := placeholder }, idxbuf)

/-- `bytes.Replace(s, pat, rep, 1)` on character lists: replace the first
    occurrence of `pat` (an empty `pat` matches at the front, as in Go
    for non-empty input). -/
def replaceFirstL (s pat rep : List Char) : List Char :=
  match s with
  | [] => []
  | c :: rest =>
    if pat.isPrefixOf (c :: rest) then rep ++ (c :: rest).drop pat.length
    else c :: replaceFirstL rest pat rep

/-- `bytes.Replace(s, pat, rep, 1)` on strings. -/
def replaceFirst (s pat rep : String) : String :=
  ⟨replaceFirstL s.data pat.data rep.data⟩

/-- `strings.ReplaceAll` on character lists. -/
def replaceAllL (s pat rep : List Char) : List Char :=
  match s with
  | [] => []
  | c :: rest =>
    if hne : pat ≠ [] ∧ pat.isPrefixOf (c :: rest) then
      rep ++ replaceAllL ((c :: rest).drop pat.length) pat rep
    else c :: replaceAllL rest pat rep
termination_by s.length
decreasing_by
  · simp only [List.length_drop, List.length_cons]
    have : 0 < pat.length := List.length_pos.mpr hne.1
    omega
  · simp

/-- `strings.ReplaceAll` on strings. -/
def replaceAll (s pat rep : String) : String :=
  ⟨replaceAllL s.data pat.data rep.data⟩

/-- Step 2 of `htmlCatalogTarget.Insert`: wrap each line of `text` in a paragraph
    tag and drop empty paragraphs. -/
def wrapText (text : String) : String :=
  replaceAll ("<p>" ++ replaceAll text "\n" "</p><p>" ++ "</p>") "<p></p>" ""

/-- The `<li>` anchor spliced into the catalog index:
    `fmt.Sprintf("<li><a href='/%s?item=%s'>%s</a></li>", ct.name, id, title)`. -/
def indexEntry (name id title : String) : String :=
  "<li><a href='/" ++ name ++ "?item=" ++ id ++ "'>" ++ title ++ "</a></li>"

/-- The rewritten row `audio` value:
    `fmt.Sprintf("//%s/%s/%s", ct.catalog, id, aname)`. -/
def audioPath (catalog id aname : String) : String :=
  "//" ++ catalog ++ "/" ++ id ++ "/" ++ aname

/-- Step 4 of `htmlCatalogTarget.Insert` as it affects the row copy: when a
    non-empty `audio` field is present, rewrite it to the public catalog path. -/
def rewriteAudio (ct : htmlCatalogTarget) (row : List (String × String)) (id : String) :
    List (String × String) :=
  let aname := recGet row "audio"
  if aname = "" then row else recSet row "audio" (audioPath ct.catalog id aname)

/-- `os.MkdirAll` on the modelled listing: add the entry unless it exists. -/
def addDir (dirs : List String) (d : String) : List String :=
  if d ∈ dirs then dirs else dirs ++ [d]

/-- `os.RemoveAll` on the modelled listing. -/
def removeDir (dirs : List String) (d : String) : List String :=
  dirs.filter (fun x => x ≠ d)

/-- Fault injection for one `htmlCatalogTarget.Insert` call: which fallible
    operation, if any, fails first (with the payload as its error text). -/
inductive InsertFault where
  /-- Every operation succeeds. -/
  | ok : InsertFault
  /-- `os.MkdirAll(idir, dirPerm)` fails. -/
  | mkdirItem : String → InsertFault
  /-- A step of the inner closure before the index-buffer splice fails: the
      audio resolution or copy, or the item page's exclusive create or render. -/
  | early : String → InsertFault
  /-- `os.WriteFile(ct.tmpIndex, ct.indexBuf, filePerm)` fails. -/
  | writeTmp : String → InsertFault
  /-- `os.Rename(ct.tmpIndex, ct.catalogIndex)` fails. -/
  | rename : String → InsertFault
deriving DecidableEq, Repr

/-- Whether the fault makes the call fail at a step after the item directory was
    created. -/
def InsertFault.postMkdirFailing : InsertFault → Bool
  | .early _ => true
  | .writeTmp _ => true
  | .rename _ => true
  | _ => false

deriving instance DecidableEq for Except

/-- The full result of one modelled `Insert` call: the returned value, the target
    in-memory state, the catalog's on-disk state, and the (copied) row map the
    item template was rendered against. -/
structure InsertResult where
  res : Except String String
  ct : htmlCatalogTarget
  fs : CatFS
  row : List (String × String)
deriving DecidableEq, Repr

/-- target.go `htmlCatalogTarget.Insert` with an injected fault. Steps, as in the
    source: validate `title` and `text`, wrap `text`, allocate
    `id = lastId + 1`, create the item directory, run the inner closure (audio
    copy and row rewrite, item page, index-buffer splice, temp-index write,
    rename), and on the closure failing remove the item directory; `lastId`
    advances only after the rename. On the `early` fault the discarded row copy
    is returned as of before the audio rewrite. -/
def htmlCatalogInsert (ct : htmlCatalogTarget) (fs : CatFS)
    (row0 : List (String × String)) (fault : InsertFault) : InsertResult :=
  if recGet row0 "title" = "" then ⟨.error "invalid row: no title", ct, fs, row0⟩
  else if recGet row0 "text" = "" then ⟨.error "invalid row: no text", ct, fs, row0⟩
  else
    let title := recGet row0 "title"
    let row1 := recSet row0 "text" (wrapText (recGet row0 "text"))
    let id := toString (ct.lastId + 1)
    match fault with
    | .mkdirItem e => ⟨.error e, ct, fs, row1⟩
    | .early e =>
      ⟨.error e, ct, { fs with dirs := removeDir (addDir fs.dirs id) id }, row1⟩
    | .writeTmp e =>
      let row2 := rewriteAudio ct row1 id
      let buf := replaceFirst ct.indexBuf ct.indexPlaceholder
        (indexEntry ct.name id title ++ ct.indexPlaceholder)
      ⟨.error e, { ct with indexBuf := buf },
        { fs with dirs := removeDir (addDir fs.dirs id) id }, row2⟩
    | .rename e =>
      let row2 := rewriteAudio ct row1 id
      let buf := replaceFirst ct.indexBuf ct.indexPlaceholder
        (indexEntry ct.name id title ++ ct.indexPlaceholder)
      ⟨.error e, { ct with indexBuf := buf },
        { fs with dirs := removeDir (addDir fs.dirs id) id, tmpIndex := some buf }, row2⟩
    | .ok =>
      let row2 := rewriteAudio ct row1 id
      let buf := replaceFirst ct.indexBuf ct.indexPlaceholder
        (indexEntry ct.name id title ++ ct.indexPlaceholder)
      ⟨.ok id, { ct with indexBuf := buf, lastId := ct.lastId + 1 },
        { fs with dirs := addDir fs.dirs id, indexFile := buf, tmpIndex := none }, row2⟩

/-- A sequence of `Insert` calls against one target instance, collecting each
    call's returned value. -/
def insertSeq (ct : htmlCatalogTarget) (fs : CatFS) :
    List (List (String × String) × InsertFault) →
    htmlCatalogTarget × CatFS × List (Except String String)
  | [] => (ct, fs, [])
  | (row, fault) :: rest =>
    let r := htmlCatalogInsert ct fs row fault
    let (ct1, fs1, results) := insertSeq r.ct r.fs rest
    (ct1, fs1, r.res :: results)

/-- Whether `pat` occurs as a contiguous sublist of `s`. -/
def containsSubL (s pat : List Char) : Bool :=
  match s with
  | [] => pat.isEmpty
  | _ :: rest => pat.isPrefixOf s || containsSubL rest pat

/-- Whether `pat` occurs as a substring of `s`. -/
def containsSub (s pat : String) : Bool := containsSubL s.data pat.data

/-- `pat` occurs in `s` at no position other than `n` (positions beyond
    `s.length` cannot carry an occurrence of a non-empty `pat`). -/
def occursOnlyAt (s pat : List Char) (n : Nat) : Prop :=
  ∀ i ≤ s.length, pat.isPrefixOf (s.drop i) → i = n

instance (s pat : List Char) (n : Nat) : Decidable (occursOnlyAt s pat n) := by
  unfold occursOnlyAt; infer_instance

/-- The `<li>` entries a run of successful inserts starting after `lastId` is
    expected to splice, one per title, ids in sequence. -/
def expectedEntries (name : String) (lastId : Int) : List String → List String
  | [] => []
  | t :: rest => indexEntry name (toString (lastId + 1)) t :: expectedEntries name (lastId + 1) rest

/-- Concatenation of a list of strings. -/
def strJoin : List String → String
  | [] => ""
  | s :: rest => s ++ strJoin rest

/-- The number of (possibly overlapping) occurrences of `pat` in `s`. -/
def occCountL (s pat : List Char) : Nat :=
  match s with
  | [] => 0
  | _ :: rest => (if pat.isPrefixOf s then 1 else 0) + occCountL rest pat

/-- The number of occurrences of `pat` as a substring of `s`. -/
def occCount (s pat : String) : Nat := occCountL s.data pat.data

/-- The rows the row loop reads and counts: readable rows up to (excluding) the
    first row whose cell list is empty. -/
def readableRows : List RowRead → List Row
  | [] => []
  | .error _ :: rest => readableRows rest
  | .ok row :: rest => if row = [] then [] else row :: readableRows rest

/-- Whether a row has at least one *pending* (insert or update) target. -/
def rowHasPending (tids : List String) (sm rm : List (String × Nat)) (row : Row) : Bool :=
  !(decide (insertTargetsOf tids sm rm row = []) &&
    decide (updateTargetsOf tids sm rm row = []))

/-- The expected results of a run of `n` successful inserts starting after `lastId`. -/
def okIds (lastId : Int) : Nat → List (Except String String)
  | 0 => []
  | n + 1 => .ok (toString (lastId + 1)) :: okIds (lastId + 1) n

/-- An index buffer holding `entries` between the fixed container `A`/`B` with the
    placeholder trailing the entries. -/
def bufWith (A pat B : String) (entries : List String) : String :=
  A ++ strJoin entries ++ pat ++ B

/-! Concrete inputs used by witness theorems. -/

/-- The run of the witness for `c1_amended_counter_accumulation`. -/
def c1WitnessOut : ProcOut :=
  ⟨["t_status", "t_record_id"], [("t", 0)], [("t", 1)],
    ⟨3, 2, 1, 0, [⟨0, 2, "ok"⟩, ⟨1, 2, "7"⟩], ["t"], true⟩, true⟩

/-- The run of the witness for `c8_amended_save_condition`. -/
def c8WitnessOut : ProcOut :=
  ⟨["t_status", "t_record_id"], [("t", 0)], [("t", 1)],
    ⟨2, 1, 1, 0, [⟨0, 2, "ok"⟩, ⟨1, 2, "7"⟩], ["t"], true⟩, true⟩

/-- Witness inputs for the C3 theorem: one target whose pair is pending in the row. -/
def c3WitnessIns : Ins := fun _ _ => .ok "7"

/-! ## Generic lemmas -/

theorem processLoop_append (ins : Ins) (sm rm : List (String × Nat))
    (fields tids : List String) (l1 l2 : List RowRead) (st : ProcState)
    (h : ∀ r ∈ l1, r ≠ .ok ([] : Row)) :
    processLoop ins sm rm fields tids st (l1 ++ l2)
      = processLoop ins sm rm fields tids (processLoop ins sm rm fields tids st l1) l2 := by
  induction l1 generalizing st with
  | nil => rfl
  | cons r l1 ih =>
    have hr : r ≠ .ok ([] : Row) := h r (by simp)
    have h1 : ∀ x ∈ l1, x ≠ .ok ([] : Row) := fun x hx => h x (by simp [hx])
    cases r with
    | error e => simpa only [List.cons_append, processLoop] using ih _ h1
    | ok row =>
      have hrow : row ≠ [] := by intro hh; exact hr (by rw [hh])
      simp only [List.cons_append, processLoop, if_neg hrow]
      split
      · exact ih _ h1
      · exact ih _ h1

theorem applyWrites_of_untouched (orig : Nat → Nat → String) (ws : List CellWrite)
    (c r : Nat) (h : ∀ w ∈ ws, ¬(w.col = c ∧ w.row = r)) :
    applyWrites orig ws c r = orig c r := by
  unfold applyWrites
  induction ws generalizing orig with
  | nil => rfl
  | cons w ws ih =>
    have hw := h w (by simp)
    simp only [List.foldl_cons, if_neg hw]
    exact ih orig (fun x hx => h x (by simp [hx]))

theorem filter_flatMap_comm {α β : Type} (l : List α) (f : α → List β) (p : β → Bool) :
    (l.flatMap f).filter p = l.flatMap (fun a => (f a).filter p) := by
  induction l with
  | nil => rfl
  | cons a l ih => simp [List.flatMap_cons, List.filter_append, ih]

theorem flatMap_eq_nil_of {α β : Type} (l : List α) (g : α → List β)
    (h : ∀ b ∈ l, g b = []) : l.flatMap g = [] := by
  induction l with
  | nil => rfl
  | cons x l ih =>
    simp only [List.flatMap_cons, h x (by simp), List.nil_append]
    exact ih (fun b hb => h b (by simp [hb]))

theorem flatMap_single {α β : Type} [DecidableEq α] (l : List α) (g : α → List β)
    (a : α) (hnd : l.Nodup) (hmem : a ∈ l) (h : ∀ b ∈ l, b ≠ a → g b = []) :
    l.flatMap g = g a := by
  induction l with
  | nil => cases hmem
  | cons x l ih =>
    rcases List.mem_cons.mp hmem with h1 | h1
    · subst h1
      have hz : ∀ b ∈ l, g b = [] := fun b hb =>
        h b (List.mem_cons_of_mem _ hb) (fun hba => (List.nodup_cons.mp hnd).1 (hba ▸ hb))
      simp [List.flatMap_cons, flatMap_eq_nil_of l g hz]
    · have hxa : x ≠ a := fun hxa => (List.nodup_cons.mp hnd).1 (hxa ▸ h1)
      simp only [List.flatMap_cons, h x (by simp) hxa, List.nil_append]
      exact ih (List.nodup_cons.mp hnd).2 h1 (fun b hb => h b (by simp [hb]))

theorem processLoop_cons_error (ins : Ins) (sm rm : List (String × Nat))
    (fields tids : List String) (st : ProcState) (e : String) (rows : List RowRead) :
    processLoop ins sm rm fields tids st (.error e :: rows)
      = processLoop ins sm rm fields tids { st with i := st.i + 1 } rows := rfl

theorem processLoop_cons_break (ins : Ins) (sm rm : List (String × Nat))
    (fields tids : List String) (st : ProcState) (rows : List RowRead) :
    processLoop ins sm rm fields tids st (.ok [] :: rows)
      = { st with i := st.i + 1 } := rfl

theorem processLoop_cons_skip (ins : Ins) (sm rm : List (String × Nat))
    (fields tids : List String) (st : ProcState) (row : Row) (rows : List RowRead)
    (hrow : row ≠ [])
    (hskip : insertTargetsOf tids sm rm row = [] ∧ updateTargetsOf tids sm rm row = []) :
    processLoop ins sm rm fields tids st (.ok row :: rows)
      = processLoop ins sm rm fields tids
          { st with i := st.i + 1, total := st.total + 1 } rows := by
  simp only [processLoop, if_neg hrow, if_pos hskip]

theorem processLoop_cons_proc (ins : Ins) (sm rm : List (String × Nat))
    (fields tids : List String) (st : ProcState) (row : Row) (rows : List RowRead)
    (hrow : row ≠ [])
    (hskip : ¬(insertTargetsOf tids sm rm row = [] ∧ updateTargetsOf tids sm rm row = [])) :
    processLoop ins sm rm fields tids st (.ok row :: rows)
      = processLoop ins sm rm fields tids
          (procStep st (processRow ins sm rm fields row (st.i + 1) tids)) rows := by
  simp only [processLoop, if_neg hrow, if_neg hskip]
  rfl

theorem rowHasPending_false_iff (tids : List String) (sm rm : List (String × Nat))
    (row : Row) :
    rowHasPending tids sm rm row = false
      ↔ (insertTargetsOf tids sm rm row = [] ∧ updateTargetsOf tids sm rm row = []) := by
  simp [rowHasPending]

theorem processLoop_counts (ins : Ins) (sm rm : List (String × Nat))
    (fields tids : List String) (rows : List RowRead) (st : ProcState) :
    (processLoop ins sm rm fields tids st rows).total
        = st.total + (readableRows rows).length ∧
      (processLoop ins sm rm fields tids st rows).done
          + (processLoop ins sm rm fields tids st rows).fail
        = st.done + st.fail
          + ((readableRows rows).filter (rowHasPending tids sm rm)).length := by
  induction rows generalizing st with
  | nil => simp [processLoop, readableRows]
  | cons r rows ih =>
    cases r with
    | error e =>
      rw [processLoop_cons_error]
      simpa [readableRows] using ih _
    | ok row =>
      by_cases hrow : row = []
      · subst hrow
        rw [processLoop_cons_break]
        simp [readableRows]
      · by_cases hskip :
          insertTargetsOf tids sm rm row = [] ∧ updateTargetsOf tids sm rm row = []
        · rw [processLoop_cons_skip ins sm rm fields tids st row rows hrow hskip]
          have hp : rowHasPending tids sm rm row = false :=
            (rowHasPending_false_iff tids sm rm row).mpr hskip
          obtain ⟨h1, h2⟩ := ih ({ st with i := st.i + 1, total := st.total + 1 } : ProcState)
          rw [h1, h2]
          simp [readableRows, if_neg hrow, hp]
          omega
        · rw [processLoop_cons_proc ins sm rm fields tids st row rows hrow hskip]
          have hp : rowHasPending tids sm rm row = true := by
            rcases Bool.eq_false_or_eq_true (rowHasPending tids sm rm row) with hh | hh
            · exact hh
            · exact absurd ((rowHasPending_false_iff tids sm rm row).mp hh) hskip
          obtain ⟨h1, h2⟩ :=
            ih (procStep st (processRow ins sm rm fields row (st.i + 1) tids))
          rw [h1, h2]
          simp only [procStep, readableRows, if_neg hrow, List.filter_cons, hp,
            List.length_cons]
          refine ⟨by omega, ?_⟩
          by_cases hs : (processRow ins sm rm fields row (st.i + 1) tids).success <;>
            simp [hs] <;> omega

theorem processLoop_updated_inv (ins : Ins) (sm rm : List (String × Nat))
    (fields tids : List String) (rows : List RowRead) (st : ProcState)
    (h1 : st.updated = decide (0 < st.done + st.fail))
    (h2 : st.writes ≠ [] → st.updated = true) :
    (processLoop ins sm rm fields tids st rows).updated
        = decide (0 < (processLoop ins sm rm fields tids st rows).done
            + (processLoop ins sm rm fields tids st rows).fail) ∧
      ((processLoop ins sm rm fields tids st rows).writes ≠ [] →
        (processLoop ins sm rm fields tids st rows).updated = true) := by
  induction rows generalizing st with
  | nil => exact ⟨h1, h2⟩
  | cons r rows ih =>
    cases r with
    | error e => rw [processLoop_cons_error]; exact ih _ h1 h2
    | ok row =>
      by_cases hrow : row = []
      · subst hrow
        rw [processLoop_cons_break]
        exact ⟨h1, h2⟩
      · by_cases hskip :
          insertTargetsOf tids sm rm row = [] ∧ updateTargetsOf tids sm rm row = []
        · rw [processLoop_cons_skip ins sm rm fields tids st row rows hrow hskip]
          exact ih _ h1 h2
        · rw [processLoop_cons_proc ins sm rm fields tids st row rows hrow hskip]
          refine ih _ ?_ ?_
          · by_cases hs : (processRow ins sm rm fields row (st.i + 1) tids).success <;>
              simp [procStep, hs]
          · intro _; rfl

theorem processTask_ok_elim (tids : List String) (ins : Ins) (fields : List String)
    (dataRows : List RowRead) (o : ProcOut)
    (h : processTask tids ins (.ok fields :: dataRows) = .ok o) :
    o = ⟨fields, (scanColumns tids fields 0 ([], [])).1,
          (scanColumns tids fields 0 ([], [])).2,
          processLoop ins (scanColumns tids fields 0 ([], [])).1
            (scanColumns tids fields 0 ([], [])).2 fields tids
            ⟨1, 0, 0, 0, [], [], false⟩ dataRows,
          (processLoop ins (scanColumns tids fields 0 ([], [])).1
            (scanColumns tids fields 0 ([], [])).2 fields tids
            ⟨1, 0, 0, 0, [], [], false⟩ dataRows).updated⟩ := by
  simp only [processTask] at h
  split at h
  · cases h
  · split at h
    · cases h
    · injection h with h2
      exact h2.symm

/-! ## C1 -/

/-- C1, counterexample: in the spec's own 3-row example (row 1 both reserved cells
    empty, row 2 status `"ok"`, row 3 status `"429: rate limited"`) the reported
    counters are `total=3, done=1, fail=0`: `total` is incremented for every
    readable non-empty row before classification, so the settled rows 2 and 3 are
    counted into `total`, refuting the claimed `total=1`. -/
theorem c1_total_counts_settled_rows_counterexample :
    (processTask ["telegram_x"] (fun _ _ => .ok "7")
        [.ok ["title", "telegram_x_status", "telegram_x_record_id"],
         .ok ["hello", "", ""],
         .ok ["a", "ok", "5"],
         .ok ["b", "429: rate limited", ""]]).map
        (fun o => (o.st.total, o.st.done, o.st.fail))
      = .ok (3, 1, 0) ∧
    ¬ (processTask ["telegram_x"] (fun _ _ => .ok "7")
        [.ok ["title", "telegram_x_status", "telegram_x_record_id"],
         .ok ["hello", "", ""],
         .ok ["a", "ok", "5"],
         .ok ["b", "429: rate limited", ""]]).map (fun o => o.st.total)
      = .ok 1 := by
  constructor
  · rfl
  · decide

/-- C1, amended: `total` counts every successfully-read non-empty row before the
    first empty row, settled rows included; only `done` and `fail` are
    restricted to rows with at least one pending target, and they partition
    those rows. In the 3-row example the counts are `total=3`, `done+fail=1`. -/
theorem c1_amended_counter_accumulation (tids : List String) (ins : Ins)
    (fields : List String) (dataRows : List RowRead) (o : ProcOut)
    (h : processTask tids ins (.ok fields :: dataRows) = .ok o) :
    o.st.total = (readableRows dataRows).length ∧
    o.st.done + o.st.fail
      = ((readableRows dataRows).filter (rowHasPending tids o.sm o.rm)).length := by
  obtain rfl := processTask_ok_elim tids ins fields dataRows o h
  obtain ⟨h1, h2⟩ := processLoop_counts ins (scanColumns tids fields 0 ([], [])).1
    (scanColumns tids fields 0 ([], [])).2 fields tids dataRows ⟨1, 0, 0, 0, [], [], false⟩
  exact ⟨by simpa using h1, by simpa using h2⟩


/-- Witness for C1's amended theorem at a concrete 2-row run (one pending row,
    one settled row). -/
theorem c1_amended_counter_accumulation_witness :
    c1WitnessOut.st.total
        = (readableRows [.ok ["", ""], .ok ["done", "9"]]).length ∧
      c1WitnessOut.st.done + c1WitnessOut.st.fail
        = ((readableRows [.ok ["", ""], .ok ["done", "9"]]).filter
            (rowHasPending ["t"] c1WitnessOut.sm c1WitnessOut.rm)).length :=
  c1_amended_counter_accumulation ["t"] (fun _ _ => .ok "7")
    ["t_status", "t_record_id"] [.ok ["", ""], .ok ["done", "9"]] c1WitnessOut (by decide)

/-! ## Header-scan lemmas (towards C7) -/

theorem mapHasKey_iff_mem (m : List (String × Nat)) (k : String) :
    mapHasKey m k = true ↔ k ∈ m.map Prod.fst := by
  induction m with
  | nil => simp [mapHasKey, List.lookup]
  | cons p m ih =>
    by_cases h : k = p.1
    · simp [mapHasKey, List.lookup, h]
    · have hb : (k == p.1) = false := beq_eq_false_iff_ne.mpr h
      simp [mapHasKey, List.lookup, hb, ih, h]

theorem lookup_cons_eq {β : Type} (p : String × β) (m : List (String × β)) (k : String) :
    (p :: m).lookup k = if k == p.1 then some p.2 else m.lookup k := by
  rcases p with ⟨a, v⟩
  by_cases h : k == a
  · simp [List.lookup, h]
  · simp [List.lookup, h]

theorem statusName_ne_recordIdName (a : String) :
    targetStatusFieldName a ≠ targetRecordIdFieldName a := by
  intro h
  have h3 := congrArg String.data h
  simp only [targetStatusFieldName, targetRecordIdFieldName, String.data_append] at h3
  have h2 := List.append_cancel_left h3
  simp at h2

theorem lookup_filter_ne {β : Type} (m : List (String × β)) (k k' : String) (h : k' ≠ k) :
    (m.filter (fun p => p.1 ≠ k)).lookup k' = m.lookup k' := by
  induction m with
  | nil => rfl
  | cons p m ih =>
    rw [List.filter_cons]
    by_cases hp : p.1 = k
    · rw [if_neg (by simp [hp])]
      rw [lookup_cons_eq p m k', if_neg (by simp [hp, h]), ih]
    · rw [if_pos (by simp [hp])]
      rw [lookup_cons_eq, lookup_cons_eq]
      by_cases hk : k' = p.1
      · rw [if_pos (by simp [hk]), if_pos (by simp [hk])]
      · rw [if_neg (by simp [hk]), if_neg (by simp [hk]), ih]

theorem mapHasKey_mapSet (m : List (String × Nat)) (k : String) (v : Nat) (k' : String) :
    mapHasKey (mapSet m k v) k' = true ↔ k' = k ∨ mapHasKey m k' = true := by
  by_cases h : k' = k
  · subst h
    simp [mapHasKey, mapSet, List.lookup]
  · have hb : (k' == k) = false := beq_eq_false_iff_ne.mpr h
    simp [mapHasKey, mapSet, List.lookup, hb, lookup_filter_ne m k k' h, h]

theorem keys_mapSet_mem (m : List (String × Nat)) (k : String) (v : Nat) (k' : String)
    (h : k' ∈ (mapSet m k v).map Prod.fst) : k' = k ∨ k' ∈ m.map Prod.fst := by
  simp only [mapSet, List.map_cons, List.mem_cons] at h
  rcases h with h | h
  · exact Or.inl h
  · right
    obtain ⟨p, hp, hpk⟩ := List.mem_map.mp h
    exact hpk ▸ List.mem_map_of_mem _ (List.mem_of_mem_filter hp)

theorem keys_mapSet_nodup (m : List (String × Nat)) (k : String) (v : Nat)
    (h : (m.map Prod.fst).Nodup) : ((mapSet m k v).map Prod.fst).Nodup := by
  simp only [mapSet, List.map_cons, List.nodup_cons]
  constructor
  · intro hk
    obtain ⟨p, hp, hpk⟩ := List.mem_map.mp hk
    have := List.of_mem_filter hp
    simp [hpk] at this
  · exact ((List.filter_sublist _).map Prod.fst).nodup h

theorem scanField_hasKey (tids : List String) (f : String) (i : Nat)
    (m : List (String × Nat) × List (String × Nat)) :
    (∀ tid, mapHasKey (scanField tids f i m).1 tid = true ↔
      (mapHasKey m.1 tid = true ∨ (tid ∈ tids ∧ f = targetStatusFieldName tid))) ∧
    (∀ tid, mapHasKey (scanField tids f i m).2 tid = true ↔
      (mapHasKey m.2 tid = true ∨ (tid ∈ tids ∧ f = targetRecordIdFieldName tid))) := by
  induction tids generalizing m with
  | nil => simp [scanField]
  | cons t tids ih =>
    have hstep : scanField (t :: tids) f i m
        = scanField tids f i
            (if f = targetStatusFieldName t then (mapSet m.1 t i, m.2)
             else if f = targetRecordIdFieldName t then (m.1, mapSet m.2 t i)
             else m) := by
      simp [scanField]
    rw [hstep]
    by_cases h1 : f = targetStatusFieldName t
    · rw [if_pos h1]
      obtain ⟨ihs, ihr⟩ := ih (mapSet m.1 t i, m.2)
      constructor
      · intro tid
        rw [ihs tid]
        simp only [mapHasKey_mapSet, List.mem_cons]
        constructor
        · rintro (⟨rfl | hh⟩ | ⟨hmem, hf⟩)
          · exact Or.inr ⟨Or.inl rfl, h1⟩
          · exact Or.inl hh
          · exact Or.inr ⟨Or.inr hmem, hf⟩
        · rintro (hh | ⟨rfl | hmem, hf⟩)
          · exact Or.inl (Or.inr hh)
          · exact Or.inl (Or.inl rfl)
          · exact Or.inr ⟨hmem, hf⟩
      · intro tid
        rw [ihr tid]
        simp only [List.mem_cons]
        constructor
        · rintro (hh | ⟨hmem, hf⟩)
          · exact Or.inl hh
          · exact Or.inr ⟨Or.inr hmem, hf⟩
        · rintro (hh | ⟨rfl | hmem, hf⟩)
          · exact Or.inl hh
          · exact absurd (h1.symm.trans hf) (statusName_ne_recordIdName tid)
          · exact Or.inr ⟨hmem, hf⟩
    · rw [if_neg h1]
      by_cases h2 : f = targetRecordIdFieldName t
      · rw [if_pos h2]
        obtain ⟨ihs, ihr⟩ := ih (m.1, mapSet m.2 t i)
        constructor
        · intro tid
          rw [ihs tid]
          simp only [List.mem_cons]
          constructor
          · rintro (hh | ⟨hmem, hf⟩)
            · exact Or.inl hh
            · exact Or.inr ⟨Or.inr hmem, hf⟩
          · rintro (hh | ⟨rfl | hmem, hf⟩)
            · exact Or.inl hh
            · exact absurd (hf.symm.trans h2) (statusName_ne_recordIdName tid)
            · exact Or.inr ⟨hmem, hf⟩
        · intro tid
          rw [ihr tid]
          simp only [mapHasKey_mapSet, List.mem_cons]
          constructor
          · rintro (⟨rfl | hh⟩ | ⟨hmem, hf⟩)
            · exact Or.inr ⟨Or.inl rfl, h2⟩
            · exact Or.inl hh
            · exact Or.inr ⟨Or.inr hmem, hf⟩
          · rintro (hh | ⟨rfl | hmem, hf⟩)
            · exact Or.inl (Or.inr hh)
            · exact Or.inl (Or.inl rfl)
            · exact Or.inr ⟨hmem, hf⟩
      · rw [if_neg h2]
        obtain ⟨ihs, ihr⟩ := ih m
        constructor
        · intro tid
          rw [ihs tid]
          simp only [List.mem_cons]
          constructor
          · rintro (hh | ⟨hmem, hf⟩)
            · exact Or.inl hh
            · exact Or.inr ⟨Or.inr hmem, hf⟩
          · rintro (hh | ⟨rfl | hmem, hf⟩)
            · exact Or.inl hh
            · exact absurd hf h1
            · exact Or.inr ⟨hmem, hf⟩
        · intro tid
          rw [ihr tid]
          simp only [List.mem_cons]
          constructor
          · rintro (hh | ⟨hmem, hf⟩)
            · exact Or.inl hh
            · exact Or.inr ⟨Or.inr hmem, hf⟩
          · rintro (hh | ⟨rfl | hmem, hf⟩)
            · exact Or.inl hh
            · exact absurd hf h2
            · exact Or.inr ⟨hmem, hf⟩

theorem scanColumns_cons (tids : List String) (f : String) (fields : List String)
    (i : Nat) (m : List (String × Nat) × List (String × Nat)) :
    scanColumns tids (f :: fields) i m
      = scanColumns tids fields (i + 1) (scanField tids f i m) := rfl

theorem scanColumns_hasKey (tids fields : List String) (i : Nat)
    (m : List (String × Nat) × List (String × Nat)) :
    (∀ tid, mapHasKey (scanColumns tids fields i m).1 tid = true ↔
      (mapHasKey m.1 tid = true ∨
        (tid ∈ tids ∧ targetStatusFieldName tid ∈ fields))) ∧
    (∀ tid, mapHasKey (scanColumns tids fields i m).2 tid = true ↔
      (mapHasKey m.2 tid = true ∨
        (tid ∈ tids ∧ targetRecordIdFieldName tid ∈ fields))) := by
  induction fields generalizing i m with
  | nil => simp [scanColumns]
  | cons f fields ih =>
    rw [scanColumns_cons]
    obtain ⟨ihs, ihr⟩ := ih (i + 1) (scanField tids f i m)
    obtain ⟨hfs, hfr⟩ := scanField_hasKey tids f i m
    constructor
    · intro tid
      rw [ihs tid, hfs tid]
      simp only [List.mem_cons]
      tauto
    · intro tid
      rw [ihr tid, hfr tid]
      simp only [List.mem_cons]
      tauto

theorem scanField_keys (tids : List String) (f : String) (i : Nat)
    (m : List (String × Nat) × List (String × Nat)) :
    ((∀ k ∈ (scanField tids f i m).1.map Prod.fst, k ∈ tids ∨ k ∈ m.1.map Prod.fst) ∧
      ((m.1.map Prod.fst).Nodup → ((scanField tids f i m).1.map Prod.fst).Nodup)) ∧
    ((∀ k ∈ (scanField tids f i m).2.map Prod.fst, k ∈ tids ∨ k ∈ m.2.map Prod.fst) ∧
      ((m.2.map Prod.fst).Nodup → ((scanField tids f i m).2.map Prod.fst).Nodup)) := by
  induction tids generalizing m with
  | nil => simp [scanField]
  | cons t tids ih =>
    have hstep : scanField (t :: tids) f i m
        = scanField tids f i
            (if f = targetStatusFieldName t then (mapSet m.1 t i, m.2)
             else if f = targetRecordIdFieldName t then (m.1, mapSet m.2 t i)
             else m) := by
      simp [scanField]
    rw [hstep]
    split
    · obtain ⟨⟨s1, s2⟩, r1, r2⟩ := ih (mapSet m.1 t i, m.2)
      refine ⟨⟨?_, ?_⟩, ?_, ?_⟩
      · intro k hk
        rcases s1 k hk with hh | hh
        · exact Or.inl (List.mem_cons_of_mem _ hh)
        · rcases keys_mapSet_mem m.1 t i k hh with rfl | hh2
          · exact Or.inl (List.mem_cons_self _ _)
          · exact Or.inr hh2
      · intro hnd
        exact s2 (keys_mapSet_nodup m.1 t i hnd)
      · intro k hk
        rcases r1 k hk with hh | hh
        · exact Or.inl (List.mem_cons_of_mem _ hh)
        · exact Or.inr hh
      · exact r2
    · split
      · obtain ⟨⟨s1, s2⟩, r1, r2⟩ := ih (m.1, mapSet m.2 t i)
        refine ⟨⟨?_, ?_⟩, ?_, ?_⟩
        · intro k hk
          rcases s1 k hk with hh | hh
          · exact Or.inl (List.mem_cons_of_mem _ hh)
          · exact Or.inr hh
        · exact s2
        · intro k hk
          rcases r1 k hk with hh | hh
          · exact Or.inl (List.mem_cons_of_mem _ hh)
          · rcases keys_mapSet_mem m.2 t i k hh with rfl | hh2
            · exact Or.inl (List.mem_cons_self _ _)
            · exact Or.inr hh2
        · intro hnd
          exact r2 (keys_mapSet_nodup m.2 t i hnd)
      · obtain ⟨⟨s1, s2⟩, r1, r2⟩ := ih m
        refine ⟨⟨?_, ?_⟩, ?_, ?_⟩
        · intro k hk
          rcases s1 k hk with hh | hh
          · exact Or.inl (List.mem_cons_of_mem _ hh)
          · exact Or.inr hh
        · exact s2
        · intro k hk
          rcases r1 k hk with hh | hh
          · exact Or.inl (List.mem_cons_of_mem _ hh)
          · exact Or.inr hh
        · exact r2

theorem scanColumns_keys (tids fields : List String) (i : Nat)
    (m : List (String × Nat) × List (String × Nat)) :
    ((∀ k ∈ (scanColumns tids fields i m).1.map Prod.fst, k ∈ tids ∨ k ∈ m.1.map Prod.fst) ∧
      ((m.1.map Prod.fst).Nodup → ((scanColumns tids fields i m).1.map Prod.fst).Nodup)) ∧
    ((∀ k ∈ (scanColumns tids fields i m).2.map Prod.fst, k ∈ tids ∨ k ∈ m.2.map Prod.fst) ∧
      ((m.2.map Prod.fst).Nodup → ((scanColumns tids fields i m).2.map Prod.fst).Nodup)) := by
  induction fields generalizing i m with
  | nil => exact ⟨⟨fun k hk => Or.inr hk, fun h => h⟩, ⟨fun k hk => Or.inr hk, fun h => h⟩⟩
  | cons f fields ih =>
    rw [scanColumns_cons]
    obtain ⟨⟨s1, s2⟩, r1, r2⟩ := ih (i + 1) (scanField tids f i m)
    obtain ⟨⟨fs1, fs2⟩, fr1, fr2⟩ := scanField_keys tids f i m
    refine ⟨⟨?_, fun hnd => s2 (fs2 hnd)⟩, ?_, fun hnd => r2 (fr2 hnd)⟩
    · intro k hk
      rcases s1 k hk with hh | hh
      · exact Or.inl hh
      · exact fs1 k hh
    · intro k hk
      rcases r1 k hk with hh | hh
      · exact Or.inl hh
      · exact fr1 k hh

theorem nodup_sub_length_iff (km tids : List String) (h1 : km.Nodup) (h2 : tids.Nodup)
    (hsub : ∀ k ∈ km, k ∈ tids) :
    km.length = tids.length ↔ ∀ t ∈ tids, t ∈ km := by
  have hfin : km.toFinset ⊆ tids.toFinset := by
    intro x hx
    rw [List.mem_toFinset] at hx ⊢
    exact hsub x hx
  constructor
  · intro hlen t ht
    have heq : km.toFinset = tids.toFinset := Finset.eq_of_subset_of_card_le hfin
      (by rw [List.toFinset_card_of_nodup h1, List.toFinset_card_of_nodup h2, hlen])
    rw [← List.mem_toFinset, ← heq, List.mem_toFinset] at ht
    exact ht
  · intro hall
    have heq : km.toFinset = tids.toFinset := by
      apply Finset.Subset.antisymm hfin
      intro x hx
      rw [List.mem_toFinset] at hx ⊢
      exact hall x hx
    rw [← List.toFinset_card_of_nodup h1, ← List.toFinset_card_of_nodup h2, heq]

theorem scan_length_status_iff (tids fields : List String) (hnd : tids.Nodup) :
    (scanColumns tids fields 0 ([], [])).1.length = tids.length
      ↔ ∀ tid ∈ tids, targetStatusFieldName tid ∈ fields := by
  have hkeys := (scanColumns_keys tids fields 0 ([], [])).1
  have hnodup : ((scanColumns tids fields 0 ([], [])).1.map Prod.fst).Nodup :=
    hkeys.2 (by simp)
  have hsub : ∀ k ∈ (scanColumns tids fields 0 ([], [])).1.map Prod.fst, k ∈ tids := by
    intro k hk
    rcases hkeys.1 k hk with h | h
    · exact h
    · simp at h
  have hlen : (scanColumns tids fields 0 ([], [])).1.length
      = ((scanColumns tids fields 0 ([], [])).1.map Prod.fst).length :=
    (List.length_map _ _).symm
  rw [hlen, nodup_sub_length_iff _ tids hnodup hnd hsub]
  constructor
  · intro h tid htid
    have hmem := h tid htid
    rw [← mapHasKey_iff_mem] at hmem
    rcases ((scanColumns_hasKey tids fields 0 ([], [])).1 tid).mp hmem with h2 | h2
    · simp [mapHasKey, List.lookup] at h2
    · exact h2.2
  · intro h tid htid
    rw [← mapHasKey_iff_mem]
    exact ((scanColumns_hasKey tids fields 0 ([], [])).1 tid).mpr (Or.inr ⟨htid, h tid htid⟩)

theorem scan_length_recordId_iff (tids fields : List String) (hnd : tids.Nodup) :
    (scanColumns tids fields 0 ([], [])).2.length = tids.length
      ↔ ∀ tid ∈ tids, targetRecordIdFieldName tid ∈ fields := by
  have hkeys := (scanColumns_keys tids fields 0 ([], [])).2
  have hnodup : ((scanColumns tids fields 0 ([], [])).2.map Prod.fst).Nodup :=
    hkeys.2 (by simp)
  have hsub : ∀ k ∈ (scanColumns tids fields 0 ([], [])).2.map Prod.fst, k ∈ tids := by
    intro k hk
    rcases hkeys.1 k hk with h | h
    · exact h
    · simp at h
  have hlen : (scanColumns tids fields 0 ([], [])).2.length
      = ((scanColumns tids fields 0 ([], [])).2.map Prod.fst).length :=
    (List.length_map _ _).symm
  rw [hlen, nodup_sub_length_iff _ tids hnodup hnd hsub]
  constructor
  · intro h tid htid
    have hmem := h tid htid
    rw [← mapHasKey_iff_mem] at hmem
    rcases ((scanColumns_hasKey tids fields 0 ([], [])).2 tid).mp hmem with h2 | h2
    · simp [mapHasKey, List.lookup] at h2
    · exact h2.2
  · intro h tid htid
    rw [← mapHasKey_iff_mem]
    exact ((scanColumns_hasKey tids fields 0 ([], [])).2 tid).mpr (Or.inr ⟨htid, h tid htid⟩)

theorem processTask_invalid_status (tids : List String) (ins : Ins)
    (fields : List String) (dataRows : List RowRead)
    (h : (scanColumns tids fields 0 ([], [])).1.length ≠ tids.length) :
    processTask tids ins (.ok fields :: dataRows)
      = .error "invalid source: invalid status columns number" := by
  simp only [processTask]
  rw [if_pos h]

theorem processTask_invalid_recordId (tids : List String) (ins : Ins)
    (fields : List String) (dataRows : List RowRead)
    (h1 : (scanColumns tids fields 0 ([], [])).1.length = tids.length)
    (h2 : (scanColumns tids fields 0 ([], [])).2.length ≠ tids.length) :
    processTask tids ins (.ok fields :: dataRows)
      = .error "invalid source: invalid record id columns number" := by
  simp only [processTask]
  rw [if_neg (by simpa using h1), if_pos h2]

theorem processTask_valid (tids : List String) (ins : Ins)
    (fields : List String) (dataRows : List RowRead)
    (h1 : (scanColumns tids fields 0 ([], [])).1.length = tids.length)
    (h2 : (scanColumns tids fields 0 ([], [])).2.length = tids.length) :
    processTask tids ins (.ok fields :: dataRows)
      = .ok ⟨fields, (scanColumns tids fields 0 ([], [])).1,
          (scanColumns tids fields 0 ([], [])).2,
          processLoop ins (scanColumns tids fields 0 ([], [])).1
            (scanColumns tids fields 0 ([], [])).2 fields tids
            ⟨1, 0, 0, 0, [], [], false⟩ dataRows,
          (processLoop ins (scanColumns tids fields 0 ([], [])).1
            (scanColumns tids fields 0 ([], [])).2 fields tids
            ⟨1, 0, 0, 0, [], [], false⟩ dataRows).updated⟩ := by
  simp only [processTask]
  rw [if_neg (by simpa using h1), if_neg (by simpa using h2)]

/-! ## C7 -/

/-- C7, counterexample: a header in which the sole target's status column name
    appears twice still passes validation (the scan maps are keyed by target id,
    so a duplicate overwrites, the last occurrence winning) and the data row is
    processed, refuting "every configured target has exactly one status column
    ... each target contributing exactly one of each; otherwise the source is
    rejected". -/
theorem c7_duplicate_column_accepted_counterexample :
    (processTask ["t"] (fun _ _ => .ok "1")
        [.ok ["t_status", "t_status", "t_record_id"], .ok ["x", "", ""]]).map
        (fun o => (o.sm, o.rm, o.st.total))
      = .ok ([("t", 1)], [("t", 2)], 1) := by
  rfl

/-- C7, amended: processing proceeds past the header iff every configured target
    has at least one status column and at least one record-id column in the
    header row (duplicate columns are tolerated, the last occurrence winning);
    otherwise the source is rejected as invalid before any data row is read —
    the run's outcome is one fixed error regardless of the data rows. -/
theorem c7_amended_header_validation (tids : List String) (ins : Ins)
    (fields : List String) (dataRows : List RowRead) (hnd : tids.Nodup) :
    ((∃ o, processTask tids ins (.ok fields :: dataRows) = .ok o)
      ↔ ∀ tid ∈ tids, targetStatusFieldName tid ∈ fields ∧
          targetRecordIdFieldName tid ∈ fields) ∧
    ((¬ ∀ tid ∈ tids, targetStatusFieldName tid ∈ fields ∧
          targetRecordIdFieldName tid ∈ fields) →
      ∀ dataRows2, processTask tids ins (.ok fields :: dataRows)
        = processTask tids ins (.ok fields :: dataRows2)) := by
  have hs := scan_length_status_iff tids fields hnd
  have hr := scan_length_recordId_iff tids fields hnd
  constructor
  · constructor
    · rintro ⟨o, ho⟩ tid htid
      by_cases h1 : (scanColumns tids fields 0 ([], [])).1.length = tids.length
      · by_cases h2 : (scanColumns tids fields 0 ([], [])).2.length = tids.length
        · exact ⟨hs.mp h1 tid htid, hr.mp h2 tid htid⟩
        · rw [processTask_invalid_recordId tids ins fields dataRows h1 h2] at ho
          cases ho
      · rw [processTask_invalid_status tids ins fields dataRows h1] at ho
        cases ho
    · intro hall
      have h1 : (scanColumns tids fields 0 ([], [])).1.length = tids.length :=
        hs.mpr (fun tid htid => (hall tid htid).1)
      have h2 : (scanColumns tids fields 0 ([], [])).2.length = tids.length :=
        hr.mpr (fun tid htid => (hall tid htid).2)
      exact ⟨_, processTask_valid tids ins fields dataRows h1 h2⟩
  · intro hbad dataRows2
    by_cases h1 : (scanColumns tids fields 0 ([], [])).1.length = tids.length
    · by_cases h2 : (scanColumns tids fields 0 ([], [])).2.length = tids.length
      · exact absurd (fun tid htid => ⟨hs.mp h1 tid htid, hr.mp h2 tid htid⟩) hbad
      · rw [processTask_invalid_recordId tids ins fields dataRows h1 h2,
          processTask_invalid_recordId tids ins fields dataRows2 h1 h2]
    · rw [processTask_invalid_status tids ins fields dataRows h1,
        processTask_invalid_status tids ins fields dataRows2 h1]

/-- Witness for C7's amended theorem at a concrete one-target header. -/
theorem c7_amended_header_validation_witness :
    ((∃ o, processTask ["t"] c3WitnessIns
        (.ok ["t_status", "t_record_id"] :: [.ok ["", ""]]) = .ok o)
      ↔ ∀ tid ∈ ["t"], targetStatusFieldName tid ∈ ["t_status", "t_record_id"] ∧
          targetRecordIdFieldName tid ∈ ["t_status", "t_record_id"]) ∧
    ((¬ ∀ tid ∈ ["t"], targetStatusFieldName tid ∈ ["t_status", "t_record_id"] ∧
          targetRecordIdFieldName tid ∈ ["t_status", "t_record_id"]) →
      ∀ dataRows2, processTask ["t"] c3WitnessIns
          (.ok ["t_status", "t_record_id"] :: [.ok ["", ""]])
        = processTask ["t"] c3WitnessIns (.ok ["t_status", "t_record_id"] :: dataRows2)) :=
  c7_amended_header_validation ["t"] c3WitnessIns ["t_status", "t_record_id"]
    [.ok ["", ""]] (by decide)

/-! ## C3 and C4: the per-pair lemmas about one processed row -/

theorem insertWrites_col (res : Except String String) (i sc rc : Nat) (w : CellWrite)
    (h : w ∈ insertWrites res i sc rc) : (w.col = sc ∨ w.col = rc) ∧ w.row = i := by
  unfold insertWrites at h
  rcases List.mem_cons.mp h with h1 | h1
  · subst h1; exact ⟨Or.inl rfl, rfl⟩
  · split at h1
    · rcases List.mem_singleton.mp h1 with rfl
      exact ⟨Or.inr rfl, rfl⟩
    · cases h1

theorem mem_insertTargetsOf (tids : List String) (sm rm : List (String × Nat))
    (row : Row) (tid : String) :
    tid ∈ insertTargetsOf tids sm rm row
      ↔ tid ∈ tids ∧ cellAt row (mapGet sm tid) = "" ∧ cellAt row (mapGet rm tid) = "" := by
  unfold insertTargetsOf
  rw [List.mem_filter]
  simp

/-- C3: a (row, target) pair with both reserved cells empty gets exactly one
    `Insert` call, and is settled with exactly one of two outcomes: status
    `"ok"` plus the non-empty record id `Insert` returned, or the error's
    non-empty text as status with no write to the record-id cell. The outcome
    hypotheses reflect the target implementations: every error path yields a
    non-empty message that is not the literal `"ok"`, and every success yields a
    non-empty id (the ids are message ids or `strconv.Itoa` of a positive int,
    with `"?"` as the telegram fallback). -/
theorem c3_pending_insert_two_outcomes (ins : Ins) (sm rm : List (String × Nat))
    (fields tids : List String) (row : Row) (i : Nat) (tid : String)
    (hmem : tid ∈ tids) (hnd : tids.Nodup)
    (hs : cellAt row (mapGet sm tid) = "") (hr : cellAt row (mapGet rm tid) = "")
    (hdisj : ∀ tid2 ∈ tids, tid2 ≠ tid →
      mapGet sm tid2 ≠ mapGet sm tid ∧ mapGet sm tid2 ≠ mapGet rm tid ∧
      mapGet rm tid2 ≠ mapGet sm tid ∧ mapGet rm tid2 ≠ mapGet rm tid)
    (hok : ∀ id, ins tid (buildRec fields row) = .ok id → id ≠ "")
    (herr : ∀ e, ins tid (buildRec fields row) = .error e → e ≠ "" ∧ e ≠ "ok") :
    (processRow ins sm rm fields row i tids).calls.count tid = 1 ∧
    ((∃ id, ins tid (buildRec fields row) = .ok id ∧ id ≠ "" ∧
        writesFor (processRow ins sm rm fields row i tids).writes i
            (mapGet sm tid) (mapGet rm tid)
          = [⟨mapGet sm tid, i, "ok"⟩, ⟨mapGet rm tid, i, id⟩]) ∨
      (∃ e, ins tid (buildRec fields row) = .error e ∧ e ≠ "" ∧ e ≠ "ok" ∧
        writesFor (processRow ins sm rm fields row i tids).writes i
            (mapGet sm tid) (mapGet rm tid)
          = [⟨mapGet sm tid, i, e⟩])) := by
  have htmem : tid ∈ insertTargetsOf tids sm rm row :=
    (mem_insertTargetsOf tids sm rm row tid).mpr ⟨hmem, hs, hr⟩
  have hits : (insertTargetsOf tids sm rm row).Nodup := hnd.filter _
  constructor
  · exact List.count_eq_one_of_mem hits htmem
  · have hflat : writesFor (processRow ins sm rm fields row i tids).writes i
        (mapGet sm tid) (mapGet rm tid)
        = writesFor (insertWrites (ins tid (buildRec fields row)) i
            (mapGet sm tid) (mapGet rm tid)) i (mapGet sm tid) (mapGet rm tid) := by
      show ((insertTargetsOf tids sm rm row).flatMap _).filter _ = _
      rw [filter_flatMap_comm]
      refine flatMap_single _ _ tid hits htmem ?_
      intro t ht htne
      have htmem2 := (mem_insertTargetsOf tids sm rm row t).mp ht
      refine List.filter_eq_nil_iff.mpr ?_
      intro w hw
      obtain ⟨hcol, hrow⟩ := insertWrites_col _ i (mapGet sm t) (mapGet rm t) w hw
      obtain ⟨d1, d2, d3, d4⟩ := hdisj t htmem2.1 htne
      rcases hcol with hcol | hcol <;>
        simp [writesFor, hcol, hrow, d1, d2, d3, d4]
    rw [hflat]
    rcases hres : ins tid (buildRec fields row) with e | id
    · refine Or.inr ⟨e, rfl, (herr e hres).1, (herr e hres).2, ?_⟩
      obtain ⟨-, he2⟩ := herr e hres
      simp [writesFor, insertWrites, insertOutcome, he2]
    · refine Or.inl ⟨id, rfl, hok id hres, ?_⟩
      simp [writesFor, insertWrites, insertOutcome]


/-- Witness for C3 at a concrete pending pair (columns 0 and 1, row 2). -/
theorem c3_pending_insert_two_outcomes_witness :
    (processRow c3WitnessIns [("t", 0)] [("t", 1)] ["t_status", "t_record_id"]
        ["", ""] 2 ["t"]).calls.count "t" = 1 ∧
    ((∃ id, c3WitnessIns "t" (buildRec ["t_status", "t_record_id"] ["", ""]) = .ok id ∧
        id ≠ "" ∧
        writesFor (processRow c3WitnessIns [("t", 0)] [("t", 1)]
            ["t_status", "t_record_id"] ["", ""] 2 ["t"]).writes 2
            (mapGet [("t", 0)] "t") (mapGet [("t", 1)] "t")
          = [⟨mapGet [("t", 0)] "t", 2, "ok"⟩, ⟨mapGet [("t", 1)] "t", 2, id⟩]) ∨
      (∃ e, c3WitnessIns "t" (buildRec ["t_status", "t_record_id"] ["", ""]) = .error e ∧
        e ≠ "" ∧ e ≠ "ok" ∧
        writesFor (processRow c3WitnessIns [("t", 0)] [("t", 1)]
            ["t_status", "t_record_id"] ["", ""] 2 ["t"]).writes 2
            (mapGet [("t", 0)] "t") (mapGet [("t", 1)] "t")
          = [⟨mapGet [("t", 0)] "t", 2, e⟩])) :=
  c3_pending_insert_two_outcomes c3WitnessIns [("t", 0)] [("t", 1)]
    ["t_status", "t_record_id"] ["t"] ["", ""] 2 "t" (by decide) (by decide)
    (by decide) (by decide) (by decide)
    (fun id h => by injection h with h2; subst h2; decide)
    (fun e h => nomatch h)

/-- C4: a (row, target) pair whose status cell is already non-empty is settled:
    its target is never called for that row and no write of the row's processing
    touches either of the pair's two reserved columns, so both cells keep their
    value. In particular a second run over the output of a first run (where the
    pair's status is `"ok"` or a non-empty error text) changes neither column. -/
theorem c4_settled_pair_untouched (ins : Ins) (sm rm : List (String × Nat))
    (fields tids : List String) (row : Row) (i : Nat) (tid : String)
    (hs : cellAt row (mapGet sm tid) ≠ "")
    (hdisj : ∀ tid2 ∈ tids, tid2 ≠ tid →
      mapGet sm tid2 ≠ mapGet sm tid ∧ mapGet sm tid2 ≠ mapGet rm tid ∧
      mapGet rm tid2 ≠ mapGet sm tid ∧ mapGet rm tid2 ≠ mapGet rm tid) :
    tid ∉ (processRow ins sm rm fields row i tids).calls ∧
    ∀ orig : Nat → Nat → String, ∀ rIdx : Nat,
      applyWrites orig (processRow ins sm rm fields row i tids).writes
          (mapGet sm tid) rIdx = orig (mapGet sm tid) rIdx ∧
      applyWrites orig (processRow ins sm rm fields row i tids).writes
          (mapGet rm tid) rIdx = orig (mapGet rm tid) rIdx := by
  have hnotmem : tid ∉ insertTargetsOf tids sm rm row := by
    intro hmem
    exact hs ((mem_insertTargetsOf tids sm rm row tid).mp hmem).2.1
  have hcols : ∀ w ∈ (processRow ins sm rm fields row i tids).writes,
      w.col ≠ mapGet sm tid ∧ w.col ≠ mapGet rm tid := by
    intro w hw
    obtain ⟨t, ht, hwt⟩ := List.mem_flatMap.mp hw
    have htne : t ≠ tid := fun hteq => hnotmem (hteq ▸ ht)
    obtain ⟨hcol, -⟩ := insertWrites_col _ i (mapGet sm t) (mapGet rm t) w hwt
    obtain ⟨d1, d2, d3, d4⟩ :=
      hdisj t ((mem_insertTargetsOf tids sm rm row t).mp ht).1 htne
    rcases hcol with hcol | hcol
    · exact ⟨hcol ▸ d1, hcol ▸ d2⟩
    · exact ⟨hcol ▸ d3, hcol ▸ d4⟩
  refine ⟨hnotmem, ?_⟩
  intro orig rIdx
  constructor
  · exact applyWrites_of_untouched orig _ _ rIdx
      (fun w hw hwc => (hcols w hw).1 hwc.1)
  · exact applyWrites_of_untouched orig _ _ rIdx
      (fun w hw hwc => (hcols w hw).2 hwc.1)

/-- Witness for C4 at a concrete settled pair (status `"ok"`, record id `"5"`). -/
theorem c4_settled_pair_untouched_witness :
    "t" ∉ (processRow c3WitnessIns [("t", 0)] [("t", 1)] ["t_status", "t_record_id"]
        ["ok", "5"] 2 ["t"]).calls ∧
    ∀ orig : Nat → Nat → String, ∀ rIdx : Nat,
      applyWrites orig (processRow c3WitnessIns [("t", 0)] [("t", 1)]
          ["t_status", "t_record_id"] ["ok", "5"] 2 ["t"]).writes
          (mapGet [("t", 0)] "t") rIdx = orig (mapGet [("t", 0)] "t") rIdx ∧
      applyWrites orig (processRow c3WitnessIns [("t", 0)] [("t", 1)]
          ["t_status", "t_record_id"] ["ok", "5"] 2 ["t"]).writes
          (mapGet [("t", 1)] "t") rIdx = orig (mapGet [("t", 1)] "t") rIdx :=
  c4_settled_pair_untouched c3WitnessIns [("t", 0)] [("t", 1)]
    ["t_status", "t_record_id"] ["t"] ["ok", "5"] 2 "t" (by decide) (by decide)

/-! ## C8 -/

/-- C8, counterexample: a row whose status cell is empty but whose record-id cell
    is non-empty is *pending-update*; the code sets `task.updated` for it although
    the commented-out update loop mutates nothing, so the table is written to the
    result file (`saved = true`) with an empty write trace, refuting "written if
    and only if some mutation occurred". -/
theorem c8_save_without_mutation_counterexample :
    (processTask ["t"] (fun _ _ => .ok "1")
        [.ok ["t_status", "t_record_id"], .ok ["", "X"]]).map
        (fun o => (o.st.writes, o.saved))
      = .ok ([], true) := by
  rfl

/-- C8, amended: the result file is written iff some row was counted as processed
    (at least one pending target), which is implied by, but does not imply, a
    cell mutation: every mutation forces a save, a pending-update-only row forces
    a save without mutation; and the result path always differs from the fetched
    source path, which is never written. -/
theorem c8_amended_save_condition (tids : List String) (ins : Ins)
    (fields : List String) (dataRows : List RowRead) (o : ProcOut)
    (h : processTask tids ins (.ok fields :: dataRows) = .ok o) :
    (o.saved = true ↔ 0 < o.st.done + o.st.fail) ∧
    (o.st.writes ≠ [] → o.saved = true) ∧
    ∀ tdir file, taskResultPath tdir file ≠ taskSourcePath tdir file := by
  obtain rfl := processTask_ok_elim tids ins fields dataRows o h
  obtain ⟨h1, h2⟩ := processLoop_updated_inv ins (scanColumns tids fields 0 ([], [])).1
    (scanColumns tids fields 0 ([], [])).2 fields tids dataRows
    ⟨1, 0, 0, 0, [], [], false⟩ (by simp) (by simp)
  refine ⟨?_, by simpa using h2, ?_⟩
  · simp only [h1]
    constructor
    · intro hh
      simpa using of_decide_eq_true hh
    · intro hh
      simpa using decide_eq_true_eq.mpr hh
  · intro tdir file heq
    have h2 := congrArg String.length heq
    simp only [taskResultPath, taskSourcePath, String.length_append] at h2
    have e1 : ("_result." : String).length = 8 := rfl
    have e2 : ("." : String).length = 1 := rfl
    rw [e1, e2] at h2
    omega


/-- Witness for C8's amended theorem at a concrete run with one pending row. -/
theorem c8_amended_save_condition_witness :
    (c8WitnessOut.saved = true ↔ 0 < c8WitnessOut.st.done + c8WitnessOut.st.fail) ∧
    (c8WitnessOut.st.writes ≠ [] → c8WitnessOut.saved = true) ∧
    ∀ tdir file, taskResultPath tdir file ≠ taskSourcePath tdir file :=
  c8_amended_save_condition ["t"] (fun _ _ => .ok "7")
    ["t_status", "t_record_id"] [.ok ["", ""]] c8WitnessOut (by decide)

/-! ## C10 -/

/-- C10: the first data row whose read yields an empty cell sequence terminates
    the row loop: the run over `rows1 ++ empty-row :: rows2` equals the run over
    `rows1` alone with only the physical row counter bumped, for any `rows2` —
    so the empty row and everything after it are never classified, never
    attempted, and contribute nothing to `total`, `done`, `fail`, the write
    trace or the call trace. A row whose read errors is merely skipped and
    iteration continues. -/
theorem c10_empty_row_breaks_error_row_skips (ins : Ins)
    (sm rm : List (String × Nat)) (fields tids : List String)
    (rows1 rows2 : List RowRead) (st : ProcState) (e : String) (rest : List RowRead)
    (h : ∀ r ∈ rows1, r ≠ .ok ([] : Row)) :
    processLoop ins sm rm fields tids st (rows1 ++ .ok ([] : Row) :: rows2)
        = { processLoop ins sm rm fields tids st rows1 with
            i := (processLoop ins sm rm fields tids st rows1).i + 1 } ∧
      processLoop ins sm rm fields tids st (.error e :: rest)
        = processLoop ins sm rm fields tids { st with i := st.i + 1 } rest := by
  constructor
  · rw [processLoop_append ins sm rm fields tids rows1 (.ok [] :: rows2) st h]
    exact processLoop_cons_break ins sm rm fields tids _ rows2
  · exact processLoop_cons_error ins sm rm fields tids st e rest

/-- Witness for C10 at a concrete run: one pending row, then the empty row, then
    two rows that would be pending were they reached. -/
theorem c10_empty_row_breaks_error_row_skips_witness :
    processLoop (fun _ _ => .ok "7") [("t", 0)] [("t", 1)] ["t_status", "t_record_id"]
        ["t"] ⟨1, 0, 0, 0, [], [], false⟩
        ([.ok ["", ""]] ++ .ok ([] : Row) :: [.ok ["", ""], .ok ["", ""]])
        = { processLoop (fun _ _ => .ok "7") [("t", 0)] [("t", 1)]
              ["t_status", "t_record_id"] ["t"] ⟨1, 0, 0, 0, [], [], false⟩
              [.ok ["", ""]] with
            i := (processLoop (fun _ _ => .ok "7") [("t", 0)] [("t", 1)]
              ["t_status", "t_record_id"] ["t"] ⟨1, 0, 0, 0, [], [], false⟩
              [.ok ["", ""]]).i + 1 } ∧
      processLoop (fun _ _ => .ok "7") [("t", 0)] [("t", 1)] ["t_status", "t_record_id"]
          ["t"] ⟨1, 0, 0, 0, [], [], false⟩ (.error "bad row" :: [.ok ["", ""]])
        = processLoop (fun _ _ => .ok "7") [("t", 0)] [("t", 1)]
            ["t_status", "t_record_id"] ["t"]
            ⟨2, 0, 0, 0, [], [], false⟩ [.ok ["", ""]] :=
  c10_empty_row_breaks_error_row_skips (fun _ _ => .ok "7") [("t", 0)] [("t", 1)]
    ["t_status", "t_record_id"] ["t"] [.ok ["", ""]] [.ok ["", ""], .ok ["", ""]]
    ⟨1, 0, 0, 0, [], [], false⟩ "bad row" [.ok ["", ""]] (by decide)

/-! ## Catalog lemmas -/

theorem recGet_recSet_eq (m : List (String × String)) (k v : String) :
    recGet (recSet m k v) k = v := by
  simp [recGet, recSet, lookup_cons_eq]

theorem recGet_recSet_ne (m : List (String × String)) (k k' v : String) (h : k' ≠ k) :
    recGet (recSet m k v) k' = recGet m k' := by
  simp only [recGet, recSet, lookup_cons_eq, beq_eq_false_iff_ne]
  rw [if_neg (by simpa using h), lookup_filter_ne m k k' h]

theorem removeDir_addDir (dirs : List String) (d : String) :
    removeDir (addDir dirs d) d = removeDir dirs d := by
  unfold addDir removeDir
  split
  · rfl
  · rw [List.filter_append]
    simp

theorem not_mem_removeDir (dirs : List String) (d : String) : d ∉ removeDir dirs d := by
  simp [removeDir]

/-! ## C2 -/

/-- C2: every Catalog `Insert` call that fails at a step after the item directory
    was created (a fault in the inner closure: audio resolution or copy, item
    page create or render, temp-index write, or the rename itself) returns an
    error, removes the partially created item directory, leaves the on-disk
    index file byte-identical to its pre-insertion state, and does not advance
    `lastId` — which advances only on the fully successful path, after the
    rename over the real index file. -/
theorem c2_failed_insert_rollback (ct : htmlCatalogTarget) (fs : CatFS)
    (row : List (String × String)) (fault : InsertFault)
    (hf : fault.postMkdirFailing = true)
    (htitle : recGet row "title" ≠ "") (htext : recGet row "text" ≠ "") :
    (∃ e, (htmlCatalogInsert ct fs row fault).res = .error e) ∧
    (htmlCatalogInsert ct fs row fault).fs.indexFile = fs.indexFile ∧
    (htmlCatalogInsert ct fs row fault).ct.lastId = ct.lastId ∧
    toString (ct.lastId + 1) ∉ (htmlCatalogInsert ct fs row fault).fs.dirs ∧
    (htmlCatalogInsert ct fs row fault).fs.dirs
      = removeDir fs.dirs (toString (ct.lastId + 1)) := by
  cases fault with
  | ok => cases hf
  | mkdirItem e => cases hf
  | early e =>
    refine ⟨⟨e, ?_⟩, ?_, ?_, ?_, ?_⟩ <;>
      simp only [htmlCatalogInsert, if_neg htitle, if_neg htext] <;>
      rw [removeDir_addDir]
    exact not_mem_removeDir _ _
  | writeTmp e =>
    refine ⟨⟨e, ?_⟩, ?_, ?_, ?_, ?_⟩ <;>
      simp only [htmlCatalogInsert, if_neg htitle, if_neg htext] <;>
      rw [removeDir_addDir]
    exact not_mem_removeDir _ _
  | rename e =>
    refine ⟨⟨e, ?_⟩, ?_, ?_, ?_, ?_⟩ <;>
      simp only [htmlCatalogInsert, if_neg htitle, if_neg htext] <;>
      rw [removeDir_addDir]
    exact not_mem_removeDir _ _

/-- Witness for C2: a temp-index write failure on a concrete catalog state. -/
theorem c2_failed_insert_rollback_witness :
    (∃ e, (htmlCatalogInsert ⟨"n", "c", "<ul>@@</ul>", 3, "@@"⟩
        ⟨["1", "2", "3", "index.html"], "<ul>old</ul>", none⟩
        [("title", "T"), ("text", "x")] (.writeTmp "disk full")).res = .error e) ∧
    (htmlCatalogInsert ⟨"n", "c", "<ul>@@</ul>", 3, "@@"⟩
        ⟨["1", "2", "3", "index.html"], "<ul>old</ul>", none⟩
        [("title", "T"), ("text", "x")] (.writeTmp "disk full")).fs.indexFile
      = (⟨["1", "2", "3", "index.html"], "<ul>old</ul>", none⟩ : CatFS).indexFile ∧
    (htmlCatalogInsert ⟨"n", "c", "<ul>@@</ul>", 3, "@@"⟩
        ⟨["1", "2", "3", "index.html"], "<ul>old</ul>", none⟩
        [("title", "T"), ("text", "x")] (.writeTmp "disk full")).ct.lastId
      = (⟨"n", "c", "<ul>@@</ul>", 3, "@@"⟩ : htmlCatalogTarget).lastId ∧
    toString ((⟨"n", "c", "<ul>@@</ul>", 3, "@@"⟩ : htmlCatalogTarget).lastId + 1)
      ∉ (htmlCatalogInsert ⟨"n", "c", "<ul>@@</ul>", 3, "@@"⟩
        ⟨["1", "2", "3", "index.html"], "<ul>old</ul>", none⟩
        [("title", "T"), ("text", "x")] (.writeTmp "disk full")).fs.dirs ∧
    (htmlCatalogInsert ⟨"n", "c", "<ul>@@</ul>", 3, "@@"⟩
        ⟨["1", "2", "3", "index.html"], "<ul>old</ul>", none⟩
        [("title", "T"), ("text", "x")] (.writeTmp "disk full")).fs.dirs
      = removeDir ["1", "2", "3", "index.html"]
          (toString ((⟨"n", "c", "<ul>@@</ul>", 3, "@@"⟩ : htmlCatalogTarget).lastId + 1)) :=
  c2_failed_insert_rollback ⟨"n", "c", "<ul>@@</ul>", 3, "@@"⟩
    ⟨["1", "2", "3", "index.html"], "<ul>old</ul>", none⟩
    [("title", "T"), ("text", "x")] (.writeTmp "disk full")
    (by decide) (by decide) (by decide)

/-! ## C6 -/

theorem maxIdScan_eq_foldl_filterMap (ds : List String) :
    maxIdScan ds
      = (ds.filterMap atoi).foldl (fun m v => if m < v then v else m) 0 := by
  unfold maxIdScan
  generalize (0 : Int) = init
  induction ds generalizing init with
  | nil => rfl
  | cons d ds ih =>
    rw [List.foldl_cons, List.filterMap_cons]
    cases h : atoi d with
    | none => exact ih init
    | some v => rw [List.foldl_cons]; exact ih _

theorem foldl_maxstep_spec (l : List Int) (init : Int) :
    (∀ x ∈ l, x ≤ l.foldl (fun m v => if m < v then v else m) init) ∧
    init ≤ l.foldl (fun m v => if m < v then v else m) init ∧
    (l.foldl (fun m v => if m < v then v else m) init = init ∨
      l.foldl (fun m v => if m < v then v else m) init ∈ l) := by
  induction l generalizing init with
  | nil => exact ⟨by simp, le_refl init, Or.inl rfl⟩
  | cons v l ih =>
    rw [List.foldl_cons]
    obtain ⟨h1, h2, h3⟩ := ih (if init < v then v else init)
    refine ⟨?_, ?_, ?_⟩
    · intro x hx
      rcases List.mem_cons.mp hx with rfl | hx
      · exact le_trans (by split <;> omega) h2
      · exact h1 x hx
    · exact le_trans (by split <;> omega) h2
    · rcases h3 with h3 | h3
      · by_cases hv : init < v
        · right
          rw [h3, if_pos hv]
          exact List.mem_cons_self _ _
        · left
          rw [h3, if_neg hv]
      · exact Or.inr (List.mem_cons_of_mem _ h3)

/-- C6: at construction the recovered `lastId` is the maximum integer among the
    catalog directory entry names that `strconv.Atoi` parses — 0 when none parse
    (the nonnegativity hypothesis holds for every catalog the code itself
    populates, as allocated ids are positive) — and every subsequent `Insert`
    allocates `id = lastId + 1`, returning it as the record id on success. -/
theorem c6_lastId_recovery_and_allocation (name catalog placeholder : String)
    (dirents : List String) (indexContent : Option String)
    (t : htmlCatalogTarget) (idx : String)
    (hok : newHTMLCatalogTarget name catalog placeholder dirents indexContent
      = .ok (t, idx))
    (hnn : ∀ x ∈ dirents.filterMap atoi, 0 ≤ x) :
    ((dirents.filterMap atoi = [] → t.lastId = 0) ∧
      (dirents.filterMap atoi ≠ [] →
        t.lastId ∈ dirents.filterMap atoi ∧
          ∀ x ∈ dirents.filterMap atoi, x ≤ t.lastId)) ∧
    (∀ fs row, recGet row "title" ≠ "" → recGet row "text" ≠ "" →
      (htmlCatalogInsert t fs row .ok).res = .ok (toString (t.lastId + 1))) := by
  have hlast : t.lastId = maxIdScan dirents := by
    unfold newHTMLCatalogTarget at hok
    split at hok
    · cases hok
    · injection hok with h2
      have h3 := congrArg Prod.fst h2
      simp only at h3
      rw [← h3]
  obtain ⟨h1, h2, h3⟩ := foldl_maxstep_spec (dirents.filterMap atoi) 0
  rw [maxIdScan_eq_foldl_filterMap] at hlast
  constructor
  · constructor
    · intro hnil
      rw [hlast, hnil]
      rfl
    · intro hne2
      rcases h3 with h3 | h3
      · obtain ⟨y, hy⟩ := List.exists_mem_of_ne_nil _ hne2
        have hy0 : (0 : Int) ≤ y := hnn y hy
        have hyle : y ≤ 0 := by
          have hle := h1 y hy
          rw [h3] at hle
          exact hle
        have hy_eq : y = 0 := le_antisymm hyle hy0
        constructor
        · rw [hlast, h3, ← hy_eq]
          exact hy
        · intro x hx
          rw [hlast]
          exact h1 x hx
      · constructor
        · rw [hlast]
          exact h3
        · intro x hx
          rw [hlast]
          exact h1 x hx
  · intro fs row htitle htext
    simp only [htmlCatalogInsert, if_neg htitle, if_neg htext]

/-- Witness for C6: an existing catalog `{1,2,5}` yields `lastId = 5` and the next
    allocated item id is `"6"`. -/
theorem c6_lastId_recovery_and_allocation_witness :
    ((["1", "2", "5", "index.html"].filterMap atoi = [] →
        (⟨"n", "c", "<ul>@@</ul>", 5, "@@"⟩ : htmlCatalogTarget).lastId = 0) ∧
      (["1", "2", "5", "index.html"].filterMap atoi ≠ [] →
        (⟨"n", "c", "<ul>@@</ul>", 5, "@@"⟩ : htmlCatalogTarget).lastId
            ∈ ["1", "2", "5", "index.html"].filterMap atoi ∧
          ∀ x ∈ ["1", "2", "5", "index.html"].filterMap atoi,
            x ≤ (⟨"n", "c", "<ul>@@</ul>", 5, "@@"⟩ : htmlCatalogTarget).lastId)) ∧
    (∀ fs row, recGet row "title" ≠ "" → recGet row "text" ≠ "" →
      (htmlCatalogInsert ⟨"n", "c", "<ul>@@</ul>", 5, "@@"⟩ fs row .ok).res
        = .ok (toString ((⟨"n", "c", "<ul>@@</ul>", 5, "@@"⟩ : htmlCatalogTarget).lastId + 1))) :=
  c6_lastId_recovery_and_allocation "n" "c" "@@" ["1", "2", "5", "index.html"] none
    ⟨"n", "c", "<ul>@@</ul>", 5, "@@"⟩ "<ul>@@</ul>" (by decide) (by decide)

/-! ## C9 -/

/-- C9, counterexample: for a successful insert with target name `"n"`, catalog
    name `"c"`, allocated id `"1"` and audio `"a.mp3"`, the audio field is
    rewritten to `//c/1/a.mp3` as claimed, but the index never contains the
    claimed link `//c/1?item=1`: the spliced anchor is `<a href='/n?item=1'>` —
    a single slash, the target name instead of the catalog name, and no `/<id>`
    path segment. -/
theorem c9_index_link_form_counterexample :
    (htmlCatalogInsert ⟨"n", "c", "<ul>@@</ul>", 0, "@@"⟩
        ⟨["index.html"], "<ul>@@</ul>", none⟩
        [("title", "T"), ("text", "x"), ("audio", "a.mp3")] .ok).res = .ok "1" ∧
    recGet (htmlCatalogInsert ⟨"n", "c", "<ul>@@</ul>", 0, "@@"⟩
        ⟨["index.html"], "<ul>@@</ul>", none⟩
        [("title", "T"), ("text", "x"), ("audio", "a.mp3")] .ok).row "audio"
      = "//c/1/a.mp3" ∧
    containsSub (htmlCatalogInsert ⟨"n", "c", "<ul>@@</ul>", 0, "@@"⟩
        ⟨["index.html"], "<ul>@@</ul>", none⟩
        [("title", "T"), ("text", "x"), ("audio", "a.mp3")] .ok).fs.indexFile
        "//c/1?item=1" = false ∧
    containsSub (htmlCatalogInsert ⟨"n", "c", "<ul>@@</ul>", 0, "@@"⟩
        ⟨["index.html"], "<ul>@@</ul>", none⟩
        [("title", "T"), ("text", "x"), ("audio", "a.mp3")] .ok).fs.indexFile
        "<a href='/n?item=1'>" = true := by
  refine ⟨rfl, rfl, by decide, by decide⟩

/-- C9, amended: a successful insert with a non-empty `audio` field returns
    `id = lastId + 1` as record id, rewrites the row's audio field to
    `//<catalog-name>/<id>/<filename>` (as the claim states), and splices
    `<li><a href='/<target-name>?item=<id>'>title</a></li>` before the
    placeholder — so the index link is `/<target-name>?item=<id>`, not
    `//<catalog-name>/<id>?item=<id>`. -/
theorem c9_amended_link_and_audio_forms (ct : htmlCatalogTarget) (fs : CatFS)
    (row : List (String × String))
    (htitle : recGet row "title" ≠ "") (htext : recGet row "text" ≠ "")
    (haudio : recGet row "audio" ≠ "") :
    (htmlCatalogInsert ct fs row .ok).res = .ok (toString (ct.lastId + 1)) ∧
    recGet (htmlCatalogInsert ct fs row .ok).row "audio"
      = audioPath ct.catalog (toString (ct.lastId + 1)) (recGet row "audio") ∧
    (htmlCatalogInsert ct fs row .ok).fs.indexFile
      = replaceFirst ct.indexBuf ct.indexPlaceholder
          (indexEntry ct.name (toString (ct.lastId + 1)) (recGet row "title")
            ++ ct.indexPlaceholder) := by
  have haud1 : recGet (recSet row "text" (wrapText (recGet row "text"))) "audio"
      = recGet row "audio" := recGet_recSet_ne row "text" "audio" _ (by decide)
  refine ⟨?_, ?_, ?_⟩ <;>
    simp only [htmlCatalogInsert, if_neg htitle, if_neg htext, rewriteAudio, haud1,
      if_neg haudio, recGet_recSet_eq]

/-- Witness for C9's amended theorem at a concrete insert with audio. -/
theorem c9_amended_link_and_audio_forms_witness :
    (htmlCatalogInsert ⟨"n", "c", "<ul>@@</ul>", 0, "@@"⟩
        ⟨["index.html"], "<ul>@@</ul>", none⟩
        [("title", "T"), ("text", "x"), ("audio", "a.mp3")] .ok).res
      = .ok (toString ((⟨"n", "c", "<ul>@@</ul>", 0, "@@"⟩ : htmlCatalogTarget).lastId + 1)) ∧
    recGet (htmlCatalogInsert ⟨"n", "c", "<ul>@@</ul>", 0, "@@"⟩
        ⟨["index.html"], "<ul>@@</ul>", none⟩
        [("title", "T"), ("text", "x"), ("audio", "a.mp3")] .ok).row "audio"
      = audioPath "c"
          (toString ((⟨"n", "c", "<ul>@@</ul>", 0, "@@"⟩ : htmlCatalogTarget).lastId + 1))
          (recGet [("title", "T"), ("text", "x"), ("audio", "a.mp3")] "audio") ∧
    (htmlCatalogInsert ⟨"n", "c", "<ul>@@</ul>", 0, "@@"⟩
        ⟨["index.html"], "<ul>@@</ul>", none⟩
        [("title", "T"), ("text", "x"), ("audio", "a.mp3")] .ok).fs.indexFile
      = replaceFirst "<ul>@@</ul>" "@@"
          (indexEntry "n"
              (toString ((⟨"n", "c", "<ul>@@</ul>", 0, "@@"⟩ : htmlCatalogTarget).lastId + 1))
              (recGet [("title", "T"), ("text", "x"), ("audio", "a.mp3")] "title")
            ++ "@@") :=
  c9_amended_link_and_audio_forms ⟨"n", "c", "<ul>@@</ul>", 0, "@@"⟩
    ⟨["index.html"], "<ul>@@</ul>", none⟩
    [("title", "T"), ("text", "x"), ("audio", "a.mp3")]
    (by decide) (by decide) (by decide)

/-! ## C5 -/

theorem replaceFirstL_cons (c : Char) (rest pat rep : List Char) :
    replaceFirstL (c :: rest) pat rep
      = if pat.isPrefixOf (c :: rest) then rep ++ (c :: rest).drop pat.length
        else c :: replaceFirstL rest pat rep := by
  rw [replaceFirstL]

theorem replaceFirstL_append_pat (pre pat post rep : List Char) (hpat : pat ≠ [])
    (h : ∀ i < pre.length, ¬ pat.isPrefixOf ((pre ++ (pat ++ post)).drop i)) :
    replaceFirstL (pre ++ (pat ++ post)) pat rep = pre ++ (rep ++ post) := by
  induction pre with
  | nil =>
    simp only [List.nil_append]
    cases hp : pat with
    | nil => exact absurd hp hpat
    | cons c cs =>
      show replaceFirstL ((c :: cs) ++ post) (c :: cs) rep = rep ++ post
      have heq : (c :: cs) ++ post = c :: (cs ++ post) := rfl
      rw [heq, replaceFirstL_cons, ← heq]
      rw [if_pos (List.isPrefixOf_iff_prefix.mpr (List.prefix_append (c :: cs) post))]
      rw [List.drop_left (c :: cs) post]
  | cons c pre ih =>
    have h0 : ¬ pat.isPrefixOf (c :: (pre ++ (pat ++ post))) := by
      have := h 0 (by simp)
      simpa using this
    show replaceFirstL (c :: (pre ++ (pat ++ post))) pat rep = c :: (pre ++ (rep ++ post))
    rw [replaceFirstL_cons, if_neg h0]
    congr 1
    refine ih ?_
    intro i hi
    have := h (i + 1) (by simpa using Nat.succ_lt_succ hi)
    simpa using this

theorem replaceFirst_splice (A pat B rep : String) (hpat : pat ≠ "")
    (hocc : occursOnlyAt (A ++ pat ++ B).data pat.data A.length) :
    replaceFirst (A ++ pat ++ B) pat rep = A ++ rep ++ B := by
  have hd : (A ++ pat ++ B).data = A.data ++ (pat.data ++ B.data) := by
    simp [String.data_append, List.append_assoc]
  have hpd : pat.data ≠ [] := by
    intro hh
    exact hpat (by cases pat with | mk l => simp at hh; rw [hh])
  have hrepl : replaceFirstL (A.data ++ (pat.data ++ B.data)) pat.data rep.data
      = A.data ++ (rep.data ++ B.data) := by
    refine replaceFirstL_append_pat A.data pat.data B.data rep.data hpd ?_
    intro i hi hpre
    have hle : i ≤ (A ++ pat ++ B).data.length := by
      rw [hd]
      simp only [List.length_append]
      omega
    have := hocc i hle (by rw [hd]; exact hpre)
    have hlen : A.length = A.data.length := rfl
    omega
  unfold replaceFirst
  rw [hd]
  have hfin : (⟨A.data ++ (rep.data ++ B.data)⟩ : String) = A ++ rep ++ B := by
    apply String.ext
    simp [String.data_append, List.append_assoc]
  rw [← hfin]
  exact congrArg String.mk hrepl

theorem insertSeq_cons (ct : htmlCatalogTarget) (fs : CatFS)
    (row : List (String × String)) (fault : InsertFault)
    (rest : List (List (String × String) × InsertFault)) :
    insertSeq ct fs ((row, fault) :: rest)
      = ((insertSeq (htmlCatalogInsert ct fs row fault).ct
            (htmlCatalogInsert ct fs row fault).fs rest).1,
         (insertSeq (htmlCatalogInsert ct fs row fault).ct
            (htmlCatalogInsert ct fs row fault).fs rest).2.1,
         (htmlCatalogInsert ct fs row fault).res
           :: (insertSeq (htmlCatalogInsert ct fs row fault).ct
                (htmlCatalogInsert ct fs row fault).fs rest).2.2) := rfl

theorem htmlCatalogInsert_ok_step (ct : htmlCatalogTarget) (fs : CatFS)
    (row : List (String × String)) (A B : String)
    (hpat : ct.indexPlaceholder ≠ "")
    (htitle : recGet row "title" ≠ "") (htext : recGet row "text" ≠ "")
    (hbuf : ct.indexBuf = A ++ ct.indexPlaceholder ++ B)
    (hocc : occursOnlyAt (A ++ ct.indexPlaceholder ++ B).data
      ct.indexPlaceholder.data A.length) :
    (htmlCatalogInsert ct fs row .ok).res = .ok (toString (ct.lastId + 1)) ∧
    (htmlCatalogInsert ct fs row .ok).ct
      = { ct with
          indexBuf := (A ++ indexEntry ct.name (toString (ct.lastId + 1)) (recGet row "title"))
            ++ ct.indexPlaceholder ++ B,
          lastId := ct.lastId + 1 } ∧
    (htmlCatalogInsert ct fs row .ok).fs.indexFile
      = (A ++ indexEntry ct.name (toString (ct.lastId + 1)) (recGet row "title"))
          ++ ct.indexPlaceholder ++ B ∧
    (htmlCatalogInsert ct fs row .ok).fs.tmpIndex = none := by
  have hsp := replaceFirst_splice A ct.indexPlaceholder B
    (indexEntry ct.name (toString (ct.lastId + 1)) (recGet row "title") ++ ct.indexPlaceholder)
    hpat hocc
  refine ⟨?_, ?_, ?_, ?_⟩ <;>
    simp only [htmlCatalogInsert, if_neg htitle, if_neg htext, hbuf, hsp] <;>
    simp [String.append_assoc]

/-- C5, counterexample: an `Insert` that fails at the temp-index write has
    already spliced its `<li>` into the in-memory buffer, which is not rolled
    back; the next successful `Insert` (which reuses the same id, since `lastId`
    did not advance) persists both entries, so after one failed and one
    successful call the index file holds two `<li>` entries — both with
    `?item=1` — for a single successfully inserted item, refuting "exactly one
    `<li>` entry per successfully inserted item". -/
theorem c5_stale_entry_counterexample :
    (insertSeq ⟨"n", "c", "<ul>@@</ul>", 0, "@@"⟩ ⟨[], "<ul>@@</ul>", none⟩
        [([("title", "A"), ("text", "x")], .writeTmp "disk full"),
         ([("title", "B"), ("text", "y")], .ok)]).2.2
      = [.error "disk full", .ok "1"] ∧
    occCount (insertSeq ⟨"n", "c", "<ul>@@</ul>", 0, "@@"⟩ ⟨[], "<ul>@@</ul>", none⟩
        [([("title", "A"), ("text", "x")], .writeTmp "disk full"),
         ([("title", "B"), ("text", "y")], .ok)]).2.1.indexFile "<li>" = 2 ∧
    occCount (insertSeq ⟨"n", "c", "<ul>@@</ul>", 0, "@@"⟩ ⟨[], "<ul>@@</ul>", none⟩
        [([("title", "A"), ("text", "x")], .writeTmp "disk full"),
         ([("title", "B"), ("text", "y")], .ok)]).2.1.indexFile "?item=1" = 2 ∧
    occCount (insertSeq ⟨"n", "c", "<ul>@@</ul>", 0, "@@"⟩ ⟨[], "<ul>@@</ul>", none⟩
        [([("title", "A"), ("text", "x")], .writeTmp "disk full"),
         ([("title", "B"), ("text", "y")], .ok)]).2.1.indexFile "@@" = 1 := by
  refine ⟨rfl, ?_, ?_, ?_⟩ <;> decide

/-- C5, amended: for a sequence of `Insert` calls in which every call succeeds,
    starting from a buffer `A ++ placeholder ++ B` matching the on-disk index
    (as the constructor produces with `A = "<ul>"`, `B = "</ul>"`), and provided
    the placeholder occurs exactly once in each intermediate buffer (it is never
    reintroduced by a title or the container), the final in-memory buffer and
    index file hold exactly the expected `<li>` entries — one per inserted item,
    in insertion order, with consecutive ids — followed by the single
    placeholder, and the calls return the consecutive ids. The claim as frozen
    fails for sequences containing a call that fails after the splice (see the
    counterexample). -/
theorem c5_amended_index_structure (name catalog pat A B : String) (L : Int)
    (fs : CatFS) (rows : List (List (String × String)))
    (hpat : pat ≠ "")
    (hvalid : ∀ r ∈ rows, recGet r "title" ≠ "" ∧ recGet r "text" ≠ "")
    (hfs : fs.indexFile = A ++ pat ++ B)
    (hocc : ∀ k ≤ rows.length,
      occursOnlyAt
        (A ++ strJoin (expectedEntries name L ((rows.map (fun r => recGet r "title")).take k))
          ++ pat ++ B).data pat.data
        (A ++ strJoin (expectedEntries name L
          ((rows.map (fun r => recGet r "title")).take k))).length) :
    (insertSeq ⟨name, catalog, A ++ pat ++ B, L, pat⟩ fs
        (rows.map (fun r => (r, InsertFault.ok)))).1
        = ⟨name, catalog,
            A ++ strJoin (expectedEntries name L (rows.map (fun r => recGet r "title")))
              ++ pat ++ B,
            L + rows.length, pat⟩ ∧
    (insertSeq ⟨name, catalog, A ++ pat ++ B, L, pat⟩ fs
        (rows.map (fun r => (r, InsertFault.ok)))).2.1.indexFile
        = A ++ strJoin (expectedEntries name L (rows.map (fun r => recGet r "title")))
            ++ pat ++ B ∧
    (insertSeq ⟨name, catalog, A ++ pat ++ B, L, pat⟩ fs
        (rows.map (fun r => (r, InsertFault.ok)))).2.2 = okIds L rows.length := by
  induction rows generalizing A L fs with
  | nil =>
    refine ⟨?_, ?_, rfl⟩ <;> simp [insertSeq, strJoin, expectedEntries, hfs, okIds]
  | cons r rows ih =>
    have hocc0 := hocc 0 (by omega)
    simp only [List.take_zero, expectedEntries, strJoin, String.append_empty] at hocc0
    have hstep := htmlCatalogInsert_ok_step ⟨name, catalog, A ++ pat ++ B, L, pat⟩ fs r A B
      hpat (hvalid r (by simp)).1 (hvalid r (by simp)).2 rfl hocc0
    obtain ⟨hres, hct, hidx, htmp⟩ := hstep
    rw [List.map_cons, insertSeq_cons, hct]
    have hctlit : ({ (⟨name, catalog, A ++ pat ++ B, L, pat⟩ : htmlCatalogTarget) with
        indexBuf := (A ++ indexEntry name (toString (L + 1)) (recGet r "title"))
          ++ pat ++ B,
        lastId := L + 1 } : htmlCatalogTarget)
        = ⟨name, catalog,
            (A ++ indexEntry name (toString (L + 1)) (recGet r "title")) ++ pat ++ B,
            L + 1, pat⟩ := rfl
    rw [hctlit]
    have hfs2 : (htmlCatalogInsert ⟨name, catalog, A ++ pat ++ B, L, pat⟩ fs r .ok).fs.indexFile
        = (A ++ indexEntry name (toString (L + 1)) (recGet r "title")) ++ pat ++ B := hidx
    have hvalid2 : ∀ x ∈ rows, recGet x "title" ≠ "" ∧ recGet x "text" ≠ "" :=
      fun x hx => hvalid x (by simp [hx])
    have hshift : ∀ k, (A ++ indexEntry name (toString (L + 1)) (recGet r "title"))
          ++ strJoin (expectedEntries name (L + 1) ((rows.map (fun x => recGet x "title")).take k))
        = A ++ strJoin (expectedEntries name L
            (((r :: rows).map (fun x => recGet x "title")).take (k + 1))) := by
      intro k
      simp only [List.map_cons, List.take_succ_cons, expectedEntries, strJoin]
      rw [String.append_assoc]
    have hocc2 : ∀ k ≤ rows.length,
        occursOnlyAt
          ((A ++ indexEntry name (toString (L + 1)) (recGet r "title"))
            ++ strJoin (expectedEntries name (L + 1)
              ((rows.map (fun x => recGet x "title")).take k)) ++ pat ++ B).data pat.data
          ((A ++ indexEntry name (toString (L + 1)) (recGet r "title"))
            ++ strJoin (expectedEntries name (L + 1)
              ((rows.map (fun x => recGet x "title")).take k))).length := by
      intro k hk
      rw [hshift k]
      exact hocc (k + 1) (by simp; omega)
    obtain ⟨ih1, ih2, ih3⟩ := ih (A ++ indexEntry name (toString (L + 1)) (recGet r "title"))
      (L + 1) (htmlCatalogInsert ⟨name, catalog, A ++ pat ++ B, L, pat⟩ fs r .ok).fs
      hvalid2 hfs2 hocc2
    have hbufeq : A ++ strJoin (expectedEntries name L
          ((r :: rows).map (fun x => recGet x "title")))
        = A ++ indexEntry name (toString (L + 1)) (recGet r "title")
            ++ strJoin (expectedEntries name (L + 1) (rows.map (fun x => recGet x "title"))) := by
      simp only [List.map_cons, expectedEntries, strJoin]
      rw [String.append_assoc]
    have harith : L + (((r :: rows).length : Nat) : Int) = L + 1 + rows.length := by
      simp only [List.length_cons]
      push_cast
      ring
    refine ⟨?_, ?_, ?_⟩
    · rw [harith, hbufeq]
      exact ih1
    · rw [hbufeq]
      exact ih2
    · rw [hres, ih3]
      rfl

/-- Witness for C5's amended theorem: two successful inserts with titles `A`, `B`
    into a fresh `<ul>@@</ul>` index. -/
theorem c5_amended_index_structure_witness :
    (insertSeq ⟨"n", "c", "<ul>" ++ "@@" ++ "</ul>", 0, "@@"⟩ ⟨[], "<ul>@@</ul>", none⟩
        ([[("title", "A"), ("text", "x")], [("title", "B"), ("text", "y")]].map
          (fun r => (r, InsertFault.ok)))).1
        = ⟨"n", "c",
            "<ul>" ++ strJoin (expectedEntries "n" 0
              ([[("title", "A"), ("text", "x")], [("title", "B"), ("text", "y")]].map
                (fun r => recGet r "title")))
              ++ "@@" ++ "</ul>",
            0 + ([[("title", "A"), ("text", "x")], [("title", "B"), ("text", "y")]] :
              List (List (String × String))).length, "@@"⟩ ∧
    (insertSeq ⟨"n", "c", "<ul>" ++ "@@" ++ "</ul>", 0, "@@"⟩ ⟨[], "<ul>@@</ul>", none⟩
        ([[("title", "A"), ("text", "x")], [("title", "B"), ("text", "y")]].map
          (fun r => (r, InsertFault.ok)))).2.1.indexFile
        = "<ul>" ++ strJoin (expectedEntries "n" 0
            ([[("title", "A"), ("text", "x")], [("title", "B"), ("text", "y")]].map
              (fun r => recGet r "title")))
            ++ "@@" ++ "</ul>" ∧
    (insertSeq ⟨"n", "c", "<ul>" ++ "@@" ++ "</ul>", 0, "@@"⟩ ⟨[], "<ul>@@</ul>", none⟩
        ([[("title", "A"), ("text", "x")], [("title", "B"), ("text", "y")]].map
          (fun r => (r, InsertFault.ok)))).2.2
        = okIds 0 ([[("title", "A"), ("text", "x")], [("title", "B"), ("text", "y")]] :
            List (List (String × String))).length :=
  c5_amended_index_structure "n" "c" "@@" "<ul>" "</ul>" 0 ⟨[], "<ul>@@</ul>", none⟩
    [[("title", "A"), ("text", "x")], [("title", "B"), ("text", "y")]]
    (by decide) (by decide) (by decide) (by decide)

end DriveExport
